import Mathlib

/-!
Cache filter of nuster (`src/cache/filter.c`).

A shallow embedding of the per-exchange cache filter: the exchange context
(`struct cache_ctx`), the five call sites registered in `cache_filter_ops`
(`attach`, `detach`, `http_headers`, `http_forward_data`, `http_end`) and the
collaborators they call.  Every collaborator call is recorded in a log, so that
statements such as "no create call is issued" are statements about that log.

Collaborators whose bodies live outside `filter.c` (`cache_build_key`,
`cache_hash_key`, `cache_exists`, `cache_test_rule`, the pool allocator, the
store) are parameters: the record `Env` holds their outcomes for one handler
call.  Their effect on the context, where the handlers depend on it, is modelled
from the specification and marked as such.
-/

namespace CacheFilter

/-! ## Data model -/

/-- Values of `*rule->state`. -/
inductive cache_rule_state where
  | CACHE_RULE_DISABLED
  | CACHE_RULE_ENABLED
  deriving DecidableEq, Repr

/-- Values of `global.cache.status` and `conf->status`. -/
inductive cache_status where
  | CACHE_STATUS_UNDEFINED
  | CACHE_STATUS_OFF
  | CACHE_STATUS_ON
  deriving DecidableEq, Repr

/-- Values of `s->txn->meth`; only `HTTP_METH_OTHER` is named by the filter. -/
inductive http_meth where
  | HTTP_METH_OPTIONS
  | HTTP_METH_GET
  | HTTP_METH_HEAD
  | HTTP_METH_POST
  | HTTP_METH_PUT
  | HTTP_METH_DELETE
  | HTTP_METH_TRACE
  | HTTP_METH_CONNECT
  | HTTP_METH_OTHER
  deriving DecidableEq, Repr

/-- Values of `ctx->state`.  The first five are the ones `filter.c` names.
Modelled from the spec: `CACHE_CTX_STATE_DONE` is the terminal state of the
state machine ("CREATE → terminal", "CREATE is exited exactly once") in which
the store's finalize operation `cache_finish`, whose body is not part of
`filter.c`, leaves the context. -/
inductive cache_ctx_state where
  | CACHE_CTX_STATE_INIT
  | CACHE_CTX_STATE_BYPASS
  | CACHE_CTX_STATE_HIT
  | CACHE_CTX_STATE_PASS
  | CACHE_CTX_STATE_CREATE
  | CACHE_CTX_STATE_DONE
  deriving DecidableEq, Repr

/-- Values of `ctx->entry->state`; `filter.c` names only
`CACHE_ENTRY_STATE_INVALID`. -/
inductive cache_entry_state where
  | CACHE_ENTRY_STATE_CREATING
  | CACHE_ENTRY_STATE_VALID
  | CACHE_ENTRY_STATE_INVALID
  deriving DecidableEq, Repr

open cache_rule_state cache_status http_meth cache_ctx_state cache_entry_state

/-- A configured rule (`struct cache_rule`).  `addr` is the identity of the
object, so that comparing two rules compares the pointers; `key` is the key
template handed to `cache_build_key`; `code` is the linked list `rule->code`
of accepted status codes (empty list = null pointer). -/
structure cache_rule where
  addr : Nat
  name : String
  key : Nat
  state : cache_rule_state
  code : List Int
  deriving DecidableEq, Repr

/-- One node of the stash list (`struct cache_rule_stash`). -/
structure cache_rule_stash where
  rule : cache_rule
  key : String
  hash : Nat
  deriving DecidableEq, Repr

/-- The store entry behind `ctx->entry`: a handle and its state field. -/
structure cache_entry where
  id : Nat
  state : cache_entry_state
  deriving DecidableEq, Repr

/-- The exchange context (`struct cache_ctx`), with the six fields that
`cache_filter_attach` initialises.  `stash` is the linked list starting at
`ctx->stash`, head first; `none` is the null pointer. -/
structure cache_ctx where
  state : cache_ctx_state
  rule : Option cache_rule
  stash : List cache_rule_stash
  entry : Option cache_entry
  data : Option Nat
  element : Option Nat
  deriving DecidableEq, Repr

/-- The part of `s->txn` the filter reads. -/
structure http_txn where
  meth : http_meth
  status : Int
  deriving DecidableEq, Repr

/-- The filter instance (`struct filter`): only `filter->ctx` matters. -/
structure filter where
  ctx : Option cache_ctx
  deriving DecidableEq, Repr

/-- A collaborator call made by a handler, in the order it is made. -/
inductive Call where
  | housekeeping
  | build_key (template : Nat)
  | hash_key (key : String)
  | stash_rule (rule : cache_rule) (key : String) (hash : Nat)
  | key_exists (key : String) (hash : Nat)
  | test_rule (rule : cache_rule) (isResp : Bool)
  | hit (data : Option Nat)
  | create (key : String) (hash : Nat)
  | update (len : Nat) (ok : Bool)
  | finish (entry : Option cache_entry)
  | abort (entry : Option cache_entry)
  | free_key (key : String)
  | pool_free_stash (node : cache_rule_stash)
  | pool_free_ctx
  | pool_alloc_ctx
  | register_data_filter (isResp : Bool)
  deriving DecidableEq, Repr

/-- Outcomes of the collaborators during one handler call.
* `cache_build_key template` is the key built for the current request, or
  `none` when key building fails;
* `cache_hash_key key` is the 64-bit hash of a key;
* `pool_alloc_stash n` tells whether allocating a stash node succeeds when the
  stash already holds `n` nodes;
* `cache_exists key hash` is the cached data found in the store, if any;
* `cache_test_rule rule isResp` is the outcome of the rule's ACL test in the
  request (`false`) or response (`true`) phase;
* `store_create key hash` is the entry the store hands out for a new capture,
  or `none` when it declines. -/
structure Env where
  cache_build_key : Nat → Option String
  cache_hash_key : String → Nat
  pool_alloc_stash : Nat → Bool
  cache_exists : String → Nat → Option Nat
  cache_test_rule : cache_rule → Bool → Bool
  store_create : String → Nat → Option cache_entry

/-- Outcome of one incremental write `cache_update`: whether it succeeded and
the position marker `ctx->element` it leaves behind. -/
structure update_outcome where
  ok : Bool
  element : Option Nat
  deriving DecidableEq, Repr

/-- What a handler hands back: its return value, the context afterwards and
the collaborator calls it made, oldest first. -/
structure Ret where
  ret : Int
  ctx : cache_ctx
  calls : List Call
  deriving DecidableEq, Repr

/-! ## Collaborators that change the context -/

/-- Modelled from the spec: `cache_stash_rule`, whose body is not part of
`filter.c`.  "Entries are appended in rule-evaluation order": on success the
node `(rule, key, hash)` is appended to the stash; when the node cannot be
allocated the stash is left as it is and the call reports failure (`none`). -/
def cache_stash_rule (env : Env) (ctx : cache_ctx) (rule : cache_rule)
    (key : String) (hash : Nat) : Option cache_ctx :=
  if env.pool_alloc_stash ctx.stash.length then
    some { ctx with stash := ctx.stash ++ [⟨rule, key, hash⟩] }
  else none

/-- Modelled from the spec: `cache_create`, whose body is not part of
`filter.c`.  "Invoke the store's entry-creation operation with the key/hash and
transition to CREATE": when the store hands out an entry it becomes the live
entry and the state becomes CREATE; when the store declines the context is left
as it is. -/
def cache_create (env : Env) (ctx : cache_ctx) (key : String) (hash : Nat) : cache_ctx :=
  match env.store_create key hash with
  | some e => { ctx with state := CACHE_CTX_STATE_CREATE, entry := some e }
  | none => ctx

/-- Modelled from the spec: `cache_update`, whose body is not part of
`filter.c`.  The incremental write reports success or failure and moves the
position marker `ctx->element`; it touches nothing else of the context. -/
def cache_update (upd : update_outcome) (ctx : cache_ctx) : Bool × cache_ctx :=
  (upd.ok, { ctx with element := upd.element })

/-- Modelled from the spec: `cache_finish`, whose body is not part of
`filter.c`.  Finalize commits the live entry and the context leaves CREATE for
the terminal state. -/
def cache_finish (ctx : cache_ctx) : cache_ctx :=
  { ctx with state := CACHE_CTX_STATE_DONE }

/-! ## `cache_filter_attach` and `cache_filter_detach` -/

/-- The context as `cache_filter_attach` initialises it. -/
def ctx_init : cache_ctx :=
  { state := CACHE_CTX_STATE_INIT, rule := none, stash := [], entry := none,
    data := none, element := none }

/-- `cache_filter_attach`.  `global_status` is `global.cache.status`,
`conf_status` is `conf->status`, `alloc_ok` tells whether `pool_alloc2` for the
context succeeds. -/
def cache_filter_attach (global_status conf_status : cache_status) (alloc_ok : Bool)
    (f : filter) : Int × filter × List Call :=
  if global_status ≠ CACHE_STATUS_ON ∨ conf_status ≠ CACHE_STATUS_ON then
    (0, f, [])
  else
    match f.ctx with
    | none =>
      if alloc_ok then
        (1, { ctx := some ctx_init },
          [Call.pool_alloc_ctx, Call.register_data_filter false, Call.register_data_filter true])
      else (0, f, [Call.pool_alloc_ctx])
    | some _ =>
      (1, f, [Call.register_data_filter false, Call.register_data_filter true])

/-- The `while(ctx->stash)` loop of `cache_filter_detach`: unlink the head,
free its key, give the node back to the pool. -/
def detach_stash : List cache_rule_stash → List Call
  | [] => []
  | stash :: next => Call.free_key stash.key :: Call.pool_free_stash stash :: detach_stash next

/-- `cache_filter_detach`.  The first component is the context as it is handed
back to the pool (`none` when the filter had no context). -/
def cache_filter_detach (f : filter) : Option cache_ctx × List Call :=
  match f.ctx with
  | none => (none, [])
  | some ctx =>
    let aborts := if ctx.state = CACHE_CTX_STATE_CREATE then [Call.abort ctx.entry] else []
    (some { ctx with stash := [] }, aborts ++ detach_stash ctx.stash ++ [Call.pool_free_ctx])

/-! ## `cache_filter_http_headers` -/

/-- How the request-phase rule loop was left: by running off the end of the
list or a `break` (`fell`), or by `return 1` from inside the loop (`returned`). -/
inductive LoopExit where
  | fell
  | returned
  deriving DecidableEq, Repr

/-- The request-phase `list_for_each_entry` loop of `cache_filter_http_headers`
(the `if(ctx->state == CACHE_CTX_STATE_INIT)` body, request side). -/
def request_rules (env : Env) : List cache_rule → cache_ctx → LoopExit × cache_ctx × List Call
  | [], ctx => (LoopExit.fell, ctx, [])
  | rule :: rest, ctx =>
    if rule.state = CACHE_RULE_DISABLED then request_rules env rest ctx
    else
      match env.cache_build_key rule.key with
      | none => (LoopExit.returned, ctx, [Call.build_key rule.key])
      | some key =>
        let hash := env.cache_hash_key key
        match cache_stash_rule env ctx rule key hash with
        | none =>
          (LoopExit.returned, ctx,
            [Call.build_key rule.key, Call.hash_key key, Call.stash_rule rule key hash])
        | some ctx1 =>
          let ctx2 := { ctx1 with data := env.cache_exists key hash }
          let calls := [Call.build_key rule.key, Call.hash_key key,
            Call.stash_rule rule key hash, Call.key_exists key hash]
          if ctx2.data.isSome then
            (LoopExit.fell, { ctx2 with state := CACHE_CTX_STATE_HIT }, calls)
          else if env.cache_test_rule rule false then
            (LoopExit.fell, { ctx2 with state := CACHE_CTX_STATE_PASS, rule := some rule },
              calls ++ [Call.test_rule rule false])
          else
            let r := request_rules env rest ctx2
            (r.1, r.2.1, calls ++ [Call.test_rule rule false] ++ r.2.2)

/-- The response-phase `list_for_each_entry` loop of
`cache_filter_http_headers`: every rule of the list is tested, in order, until
one passes. -/
def response_rules (env : Env) : List cache_rule → cache_ctx → cache_ctx × List Call
  | [], ctx => (ctx, [])
  | rule :: rest, ctx =>
    if env.cache_test_rule rule true then
      ({ ctx with state := CACHE_CTX_STATE_PASS, rule := some rule }, [Call.test_rule rule true])
    else
      let r := response_rules env rest ctx
      (r.1, Call.test_rule rule true :: r.2)

/-- The `while(cc)` loop over the accepted status codes. -/
def code_scan : List Int → Int → Bool
  | [], _ => false
  | code :: next, status => if code = status then true else code_scan next status

/-- The value of `valid` after the status-code check: set when the list is
null, or by the loop when it finds the status. -/
def code_valid (cc : List Int) (status : Int) : Bool :=
  (if cc = [] then true else false) || code_scan cc status

/-- The `while(stash)` loop that recovers the key: `stash` walks the list, but
the test `ctx->stash->rule == ctx->rule` reads the rule of the head node
`ctx->stash` on every round. -/
def stash_scan (ctx : cache_ctx) : List cache_rule_stash → Option (String × Nat)
  | [] => none
  | stash :: next =>
    match ctx.stash with
    | [] => none
    | head :: _ =>
      if some head.rule = ctx.rule then some (stash.key, stash.hash)
      else stash_scan ctx next

/-- The `if(ctx->state == CACHE_CTX_STATE_PASS)` block of the response phase.
`none` is the null dereference `ctx->rule->code` with `ctx->rule == NULL`. -/
def response_pass (env : Env) (txn : http_txn) (ctx : cache_ctx) (calls : List Call) :
    Option Ret :=
  match ctx.rule with
  | none => none
  | some rule =>
    if code_valid rule.code txn.status = false then some ⟨1, ctx, calls⟩
    else
      match stash_scan ctx ctx.stash with
      | none => some ⟨1, ctx, calls⟩
      | some (key, hash) =>
        some ⟨1, cache_create env ctx key hash, calls ++ [Call.create key hash]⟩

/-- `cache_filter_http_headers`.  `rules` is `px->cache_rules`, `isResp` is
`msg->chn->flags & CF_ISRESP`.  `none` stands for a null dereference. -/
def cache_filter_http_headers (env : Env) (rules : List cache_rule) (txn : http_txn)
    (isResp : Bool) (ctx : cache_ctx) : Option Ret :=
  if isResp = false then
    let ctx1 :=
      if txn.meth = HTTP_METH_OTHER then { ctx with state := CACHE_CTX_STATE_BYPASS } else ctx
    if ctx1.state = CACHE_CTX_STATE_INIT then
      let r := request_rules env rules ctx1
      match r.1 with
      | LoopExit.returned => some ⟨1, r.2.1, Call.housekeeping :: r.2.2⟩
      | LoopExit.fell =>
        if r.2.1.state = CACHE_CTX_STATE_HIT then
          some ⟨1, r.2.1, Call.housekeeping :: r.2.2 ++ [Call.hit r.2.1.data]⟩
        else some ⟨1, r.2.1, Call.housekeeping :: r.2.2⟩
    else if ctx1.state = CACHE_CTX_STATE_HIT then
      some ⟨1, ctx1, [Call.housekeeping, Call.hit ctx1.data]⟩
    else some ⟨1, ctx1, [Call.housekeeping]⟩
  else
    let r :=
      if ctx.state = CACHE_CTX_STATE_INIT then response_rules env rules ctx else (ctx, [])
    if r.1.state = CACHE_CTX_STATE_PASS then response_pass env txn r.1 r.2
    else some ⟨1, r.1, r.2⟩

/-! ## `cache_filter_http_forward_data` and `cache_filter_http_end` -/

/-- Conversion of the `unsigned int` chunk length to the `int` the handler
returns (two's complement, 32 bits). -/
def to_int (len : Nat) : Int :=
  if len % 2 ^ 32 < 2 ^ 31 then ((len % 2 ^ 32 : Nat) : Int)
  else ((len % 2 ^ 32 : Nat) : Int) - 2 ^ 32

/-- `cache_filter_http_forward_data`.  `upd` is the outcome the store would
give to `cache_update` on this chunk.  `none` is the null dereference
`ctx->entry->state` with `ctx->entry == NULL`. -/
def cache_filter_http_forward_data (upd : update_outcome) (isResp : Bool) (len : Nat)
    (ctx : cache_ctx) : Option Ret :=
  if ctx.state = CACHE_CTX_STATE_CREATE ∧ isResp = true then
    let r := cache_update upd ctx
    if r.1 = false then
      match r.2.entry with
      | none => none
      | some e =>
        some ⟨to_int len,
          { r.2 with entry := some { e with state := CACHE_ENTRY_STATE_INVALID },
                     state := CACHE_CTX_STATE_PASS },
          [Call.update len false]⟩
    else some ⟨to_int len, r.2, [Call.update len true]⟩
  else some ⟨to_int len, ctx, []⟩

/-- `cache_filter_http_end`. -/
def cache_filter_http_end (isResp : Bool) (ctx : cache_ctx) : Ret :=
  if ctx.state = CACHE_CTX_STATE_CREATE ∧ isResp = true then
    ⟨1, cache_finish ctx, [Call.finish ctx.entry]⟩
  else ⟨1, ctx, []⟩

/-! ## Sequences of call sites -/

/-- One call of the pipeline into the filter between attach and detach,
together with the outcomes the collaborators give during that call. -/
inductive Site where
  | http_headers (env : Env) (rules : List cache_rule) (txn : http_txn) (isResp : Bool)
  | http_forward_data (upd : update_outcome) (isResp : Bool) (len : Nat)
  | http_end (isResp : Bool)

/-- The context together with the log of all collaborator calls so far. -/
structure World where
  ctx : cache_ctx
  log : List Call
  deriving DecidableEq, Repr

/-- Run one call site; `none` is a null dereference. -/
def step (w : World) : Site → Option World
  | Site.http_headers env rules txn isResp =>
    (cache_filter_http_headers env rules txn isResp w.ctx).map
      fun r => ⟨r.ctx, w.log ++ r.calls⟩
  | Site.http_forward_data upd isResp len =>
    (cache_filter_http_forward_data upd isResp len w.ctx).map
      fun r => ⟨r.ctx, w.log ++ r.calls⟩
  | Site.http_end isResp =>
    let r := cache_filter_http_end isResp w.ctx
    some ⟨r.ctx, w.log ++ r.calls⟩

/-- Run a sequence of call sites, oldest first. -/
def run : List Site → World → Option World
  | [], w => some w
  | s :: rest, w =>
    match step w s with
    | none => none
    | some w1 => run rest w1

/-- The whole log of an exchange: the call sites, then `cache_filter_detach`. -/
def run_detach (sites : List Site) (w : World) : Option (List Call) :=
  (run sites w).map fun w1 => w1.log ++ (cache_filter_detach ⟨some w1.ctx⟩).2

/-! ## Vocabulary of the specification -/

/-- The enabled rules, in configured order. -/
def enabled (rules : List cache_rule) : List cache_rule :=
  rules.filter fun r => decide (r.state ≠ CACHE_RULE_DISABLED)

/-- The stash node recorded for a rule whose key is `key r`. -/
def stash_entry (env : Env) (key : cache_rule → String) (r : cache_rule) : cache_rule_stash :=
  ⟨r, key r, env.cache_hash_key (key r)⟩

/-- The existence check of the rule hits: the store holds data under the key
built for the rule and its hash. -/
def rule_hits (env : Env) (key : cache_rule → String) (r : cache_rule) : Bool :=
  (env.cache_exists (key r) (env.cache_hash_key (key r))).isSome

/-- The request-side predicate of the rule passes. -/
def rule_passes (env : Env) (r : cache_rule) : Bool :=
  env.cache_test_rule r false

/-- The rule the claim names: the first enabled rule whose existence check
hits and, only if there is none, the first enabled rule whose request-side
predicate passes. -/
def claimed_decider (env : Env) (key : cache_rule → String) (rules : List cache_rule) :
    Option cache_rule :=
  match (enabled rules).find? (rule_hits env key) with
  | some r => some r
  | none => (enabled rules).find? (rule_passes env)

/-- The first enabled rule, in configured order, whose existence check hits or
whose request-side predicate passes. -/
def first_decider (env : Env) (key : cache_rule → String) (rules : List cache_rule) :
    Option cache_rule :=
  (enabled rules).find? fun r => rule_hits env key r || rule_passes env r

/-- The enabled rules up to and including the first one that hits or passes,
or all enabled rules when none does. -/
def evaluated (env : Env) (key : cache_rule → String) : List cache_rule → List cache_rule
  | [] => []
  | r :: rest =>
    if r.state = CACHE_RULE_DISABLED then evaluated env key rest
    else if rule_hits env key r || rule_passes env r then [r]
    else r :: evaluated env key rest

/-- The rule handed to `cache_stash_rule`, when the call is one. -/
def Call.stashed_rule : Call → Option cache_rule
  | Call.stash_rule rule _ _ => some rule
  | _ => none

/-- The rules handed to `cache_stash_rule`, in call order. -/
def stashed_rules (calls : List Call) : List cache_rule :=
  calls.filterMap Call.stashed_rule

/-- The rule that decided the exchange, read off the outcome of the request
phase: the governing rule in state PASS; in state HIT, where `ctx->rule` is not
written, the rule the loop was working on when it stopped, that is the rule of
the last `cache_stash_rule` call. -/
def deciding_rule (ret : Ret) : Option cache_rule :=
  match ret.ctx.state with
  | CACHE_CTX_STATE_PASS => ret.ctx.rule
  | CACHE_CTX_STATE_HIT => (stashed_rules ret.calls).getLast?
  | _ => none

/-- The part of a request-phase outcome the claims talk about. -/
structure RequestOutcome (env : Env) (key : cache_rule → String) (rules : List cache_rule)
    (ctx : cache_ctx) (out : LoopExit × cache_ctx × List Call) : Prop where
  fell : out.1 = LoopExit.fell
  stash : out.2.1.stash = ctx.stash ++ (evaluated env key rules).map (stash_entry env key)
  entry : out.2.1.entry = ctx.entry
  element : out.2.1.element = ctx.element
  hit : ∀ d, first_decider env key rules = some d → rule_hits env key d = true →
    out.2.1.state = CACHE_CTX_STATE_HIT ∧ out.2.1.rule = ctx.rule ∧
    out.2.1.data = env.cache_exists (key d) (env.cache_hash_key (key d))
  pass : ∀ d, first_decider env key rules = some d → rule_hits env key d = false →
    out.2.1.state = CACHE_CTX_STATE_PASS ∧ out.2.1.rule = some d ∧ out.2.1.data = none
  undecided : first_decider env key rules = none →
    out.2.1.state = ctx.state ∧ out.2.1.rule = ctx.rule
  last : ∀ d, first_decider env key rules = some d →
    (evaluated env key rules).getLast? = some d
  stashed : stashed_rules out.2.2 = evaluated env key rules

/-! ## Example inputs -/

/-- Rule `a`: enabled, accepts any status code. -/
def rule_a : cache_rule := ⟨1, "a", 10, CACHE_RULE_ENABLED, []⟩

/-- Rule `b`: enabled, accepts status 200 only. -/
def rule_b : cache_rule := ⟨2, "b", 20, CACHE_RULE_ENABLED, [200]⟩

/-- Rule `c`: disabled. -/
def rule_c : cache_rule := ⟨3, "c", 30, CACHE_RULE_DISABLED, []⟩

/-- The keys of the example rules. -/
def key_ab (r : cache_rule) : String :=
  if r.key = 10 then "/a" else if r.key = 20 then "/b" else "/c"

/-- Collaborators for the example rules: every key builds, every allocation
succeeds, the store holds data `7` under rule `b`'s key only, the request-side
predicate passes for rule `a` only, no response-side predicate passes, the
store accepts every create. -/
def env_ab : Env :=
  { cache_build_key := fun t => if t = 10 then some "/a" else if t = 20 then some "/b" else some "/c"
    cache_hash_key := fun k => k.length
    pool_alloc_stash := fun _ => true
    cache_exists := fun k _ => if k = "/b" then some 7 else none
    cache_test_rule := fun r isResp => !isResp && r.addr == 1
    store_create := fun _ h => some ⟨h, CACHE_ENTRY_STATE_CREATING⟩ }

/-- A GET request whose response has status 200. -/
def txn_get : http_txn := ⟨HTTP_METH_GET, 200⟩

/-- A request with a method outside the eligible set. -/
def txn_other : http_txn := ⟨HTTP_METH_OTHER, 200⟩

/-- The request-phase loop passes over the rule and goes on to the next one:
the rule is disabled, or its key is built and stashed, its existence check
misses and its request-side predicate fails. -/
def passed_over (env : Env) (r : cache_rule) : Prop :=
  r.state = CACHE_RULE_DISABLED ∨
    ∃ k, env.cache_build_key r.key = some k ∧
      env.cache_exists k (env.cache_hash_key k) = none ∧ env.cache_test_rule r false = false

/-- Rule `d`: enabled, accepts any status code. -/
def rule_d : cache_rule := ⟨4, "d", 40, CACHE_RULE_ENABLED, []⟩

/-- Collaborators under which the decision falls in the response phase: every
key builds, every allocation succeeds, the store holds nothing, no request-side
predicate passes, the response-side predicate passes for rule `b` only, the
store accepts every create. -/
def env_resp : Env :=
  { cache_build_key := fun t => if t = 10 then some "/a" else if t = 20 then some "/b" else some "/c"
    cache_hash_key := fun k => k.length
    pool_alloc_stash := fun _ => true
    cache_exists := fun _ _ => none
    cache_test_rule := fun r isResp => isResp && r.addr == 2
    store_create := fun _ h => some ⟨h, CACHE_ENTRY_STATE_CREATING⟩ }

/-- The call is the store's entry-creation operation. -/
def Call.is_create : Call → Bool
  | Call.create _ _ => true
  | _ => false

/-- The call is the store's incremental write. -/
def Call.is_update : Call → Bool
  | Call.update _ _ => true
  | _ => false

/-- The call is an incremental write that reported failure. -/
def Call.is_failed_update : Call → Bool
  | Call.update _ false => true
  | _ => false

/-- The call is the store's finalize operation. -/
def Call.is_finish : Call → Bool
  | Call.finish _ => true
  | _ => false

/-- The call is the store's abort operation. -/
def Call.is_abort : Call → Bool
  | Call.abort _ => true
  | _ => false

/-- The call is one of finalize and abort. -/
def Call.is_closing (c : Call) : Bool :=
  c.is_finish || c.is_abort

/-- The status is accepted in the sense of the specification: the rule has no
code restriction, or the status appears in its accepted set. -/
def status_accepted (rule : cache_rule) (status : Int) : Prop :=
  rule.code = [] ∨ status ∈ rule.code

/-- The first stash node, in stash order, whose rule is the given one. -/
def first_stash_for (rule : cache_rule) (stash : List cache_rule_stash) :
    Option cache_rule_stash :=
  stash.find? fun s => decide (s.rule = rule)

/-- A context in state PASS governed by rule `b`, whose stash holds the nodes
of rules `a`, `b` and `d`: the node of the governing rule is not the head. -/
def ctx_pass_b : cache_ctx :=
  { state := CACHE_CTX_STATE_PASS, rule := some rule_b,
    stash := [⟨rule_a, "/a", 2⟩, ⟨rule_b, "/b", 2⟩, ⟨rule_d, "/c", 2⟩],
    entry := none, data := none, element := none }

/-- The call site belongs to the body phase: a body chunk or end-of-message,
in either direction. -/
def Site.is_body : Site → Bool
  | Site.http_headers _ _ _ _ => false
  | Site.http_forward_data _ _ _ => true
  | Site.http_end _ => true

/-- A context in state CREATE: governed by rule `a`, live entry with handle 2. -/
def ctx_create : cache_ctx :=
  { state := CACHE_CTX_STATE_CREATE, rule := some rule_a, stash := [⟨rule_a, "/a", 2⟩],
    entry := some ⟨2, CACHE_ENTRY_STATE_CREATING⟩, data := none, element := none }

/-- A write that succeeds and leaves the position marker at 1. -/
def upd_ok : update_outcome := ⟨true, some 1⟩

/-- A write that fails. -/
def upd_fail : update_outcome := ⟨false, none⟩

/-- What happened to the entry `e` that was live in state CREATE, as seen in
the context `ctx` and in the calls `ext` made since: the capture is still
running, or a write failed, or the entry was finalized. -/
def Capture (e : cache_entry) (ctx : cache_ctx) (ext : List Call) : Prop :=
  (ctx.state = CACHE_CTX_STATE_CREATE ∧ ctx.entry = some e ∧
    ext.any Call.is_failed_update = false ∧ ext.filter Call.is_closing = []) ∨
  (ctx.state ≠ CACHE_CTX_STATE_CREATE ∧
    ext.any Call.is_failed_update = true ∧ ext.filter Call.is_closing = []) ∨
  (ctx.state ≠ CACHE_CTX_STATE_CREATE ∧
    ext.any Call.is_failed_update = false ∧ ext.filter Call.is_closing = [Call.finish (some e)])

/-- The exchange of the scenario "second write call fails": a GET request
admitted by rule `a`, a response with status 200, a chunk of 100 bytes that is
written, a chunk of 50 bytes whose write fails, end-of-message. -/
def exchange_write_fails : List Site :=
  [Site.http_headers env_ab [rule_a] txn_get false,
   Site.http_headers env_ab [rule_a] txn_get true,
   Site.http_forward_data upd_ok true 100,
   Site.http_forward_data upd_fail true 50,
   Site.http_end true]

/-! ## Reachable contexts -/

/-- What holds of every context an exchange can be in: the cached data and the
live entry are never both set; INIT has neither; PASS has a governing rule and
no cached data; CREATE has a governing rule, a live entry and no cached data;
HIT has cached data and no live entry. -/
structure Inv (ctx : cache_ctx) : Prop where
  not_both : ctx.entry = none ∨ ctx.data = none
  init : ctx.state = CACHE_CTX_STATE_INIT → ctx.entry = none ∧ ctx.data = none
  pass : ctx.state = CACHE_CTX_STATE_PASS → ctx.rule.isSome = true ∧ ctx.data = none
  create : ctx.state = CACHE_CTX_STATE_CREATE →
    ctx.rule.isSome = true ∧ ctx.entry.isSome = true ∧ ctx.data = none
  hit : ctx.state = CACHE_CTX_STATE_HIT → ctx.data.isSome = true ∧ ctx.entry = none

/-- The call belongs to the capture of a response: create, incremental write,
finalize or abort. -/
def Call.is_capture : Call → Bool
  | Call.create _ _ => true
  | Call.update _ _ => true
  | Call.finish _ => true
  | Call.abort _ => true
  | _ => false

/-- The call is an operation of the store: existence check, create,
incremental write, finalize, abort or housekeeping tick. -/
def Call.is_store : Call → Bool
  | Call.key_exists _ _ => true
  | Call.housekeeping => true
  | c => c.is_capture

/-- The call evaluates an admission predicate. -/
def Call.is_test_rule : Call → Bool
  | Call.test_rule _ _ => true
  | _ => false

/-- The stash node given back to the pool, when the call does that. -/
def Call.freed_node : Call → Option cache_rule_stash
  | Call.pool_free_stash node => some node
  | _ => none

/-- The key freed, when the call is `free(stash->key)`. -/
def Call.freed_key : Call → Option String
  | Call.free_key key => some key
  | _ => none

/-- A call site that follows the request headers of an exchange: response
headers, a body chunk, or end-of-message. -/
def Site.is_later : Site → Bool
  | Site.http_headers _ _ _ isResp => isResp
  | Site.http_forward_data _ _ _ => true
  | Site.http_end _ => true

/-- The call sites of a response body: one chunk per element, each with the
outcome the store gives to its write, then end-of-message. -/
def body_sites (chunks : List (update_outcome × Nat)) : List Site :=
  chunks.map (fun c => Site.http_forward_data c.1 true c.2) ++ [Site.http_end true]

/-- The outcome of request headers for a GET request under `env_ab` with rules
`b`, `a`: rule `b` is in the store, so the exchange is a HIT. -/
def ret_hit_b : Ret :=
  { ret := 1
    ctx := { state := CACHE_CTX_STATE_HIT, rule := none, stash := [⟨rule_b, "/b", 2⟩],
             entry := none, data := some 7, element := none }
    calls := [Call.housekeeping, Call.build_key 20, Call.hash_key "/b",
      Call.stash_rule rule_b "/b" 2, Call.key_exists "/b" 2, Call.hit (some 7)] }

/-- Collaborators under which every response-side predicate passes: every key
builds, every allocation succeeds, the store holds nothing, no request-side
predicate passes, the store accepts every create. -/
def env_resp_all : Env :=
  { cache_build_key := fun t => if t = 10 then some "/a" else if t = 20 then some "/b" else some "/c"
    cache_hash_key := fun k => k.length
    pool_alloc_stash := fun _ => true
    cache_exists := fun _ _ => none
    cache_test_rule := fun _ isResp => isResp
    store_create := fun _ h => some ⟨h, CACHE_ENTRY_STATE_CREATING⟩ }

/-- Collaborators under which key building fails for rule `b`: the key of rule
`a` builds, every allocation succeeds, the store holds nothing, no request-side
predicate passes, the response-side predicate passes for rule `a`, the store
accepts every create. -/
def env_key_fails : Env :=
  { cache_build_key := fun t => if t = 10 then some "/a" else none
    cache_hash_key := fun k => k.length
    pool_alloc_stash := fun _ => true
    cache_exists := fun _ _ => none
    cache_test_rule := fun r isResp => isResp && r.addr == 1
    store_create := fun _ h => some ⟨h, CACHE_ENTRY_STATE_CREATING⟩ }

/-- The rule the response-side pass should choose according to the claim: the
first enabled rule whose response-side predicate passes. -/
def claimed_response_rule (env : Env) (rules : List cache_rule) : Option cache_rule :=
  (enabled rules).find? fun r => env.cache_test_rule r true

/-! ## Settling the live entry -/

/-- A call site that comes before the response body in the pipeline: a header
call, or a body chunk or end-of-message of the request. -/
def Site.is_head : Site → Bool
  | Site.http_headers _ _ _ _ => true
  | Site.http_forward_data _ isResp _ => !isResp
  | Site.http_end isResp => !isResp

/-- The call settles the live entry: the store's finalize, the store's abort,
or the abort by the failing write path, that is the write that reports failure
and upon which `cache_filter_http_forward_data` itself marks the entry
`CACHE_ENTRY_STATE_INVALID` and leaves CREATE (filter.c:238-241). -/
def Call.is_settling (c : Call) : Bool :=
  c.is_finish || c.is_abort || c.is_failed_update

/-- The call that settles the entry `e`, live in state CREATE when the response
body begins, read off the body-phase call sites in arrival order: the first
response chunk whose write fails settles it on the failing write path; the
first end-of-message of the response before any such chunk finalizes it; when
the body holds neither, teardown aborts it. -/
def settling_call (e : cache_entry) : List Site → Call
  | [] => Call.abort (some e)
  | s :: rest =>
    match s with
    | Site.http_forward_data upd isResp len =>
      if isResp = true ∧ upd.ok = false then Call.update len false
      else settling_call e rest
    | Site.http_end isResp =>
      if isResp = true then Call.finish (some e) else settling_call e rest
    | Site.http_headers _ _ _ _ => settling_call e rest

/-- The log of `exchange_write_fails` when the response body begins: the calls
of the two header phases. -/
def log_create : List Call :=
  [Call.housekeeping, Call.build_key 10, Call.hash_key "/a", Call.stash_rule rule_a "/a" 2,
    Call.key_exists "/a" 2, Call.test_rule rule_a false, Call.create "/a" 2]

/-- How the entry `e` stands when the call sites are over and teardown is
about to run, given the call `sc` that settles it and the settling calls `evs`
logged so far:
* `sc` is the abort: no settling call was logged yet and the context is still
  in CREATE with `e` live, so that teardown aborts it;
* `sc` is the finalize: it is the one settling call logged and the context has
  left CREATE for the terminal state;
* `sc` is a failed write: it is the one settling call logged, the entry is
  marked `CACHE_ENTRY_STATE_INVALID` and the state is PASS. -/
def Settled (e : cache_entry) (sc : Call) (ctx : cache_ctx) (evs : List Call) : Prop :=
  (sc = Call.abort (some e) ∧ evs = [] ∧
    ctx.state = CACHE_CTX_STATE_CREATE ∧ ctx.entry = some e) ∨
  (sc = Call.finish (some e) ∧ evs = [sc] ∧
    ctx.state = CACHE_CTX_STATE_DONE ∧ ctx.entry = some e) ∨
  (∃ len, sc = Call.update len false ∧ evs = [sc] ∧
    ctx.state = CACHE_CTX_STATE_PASS ∧
    ctx.entry = some { e with state := CACHE_ENTRY_STATE_INVALID })

/-! # Lemmas and theorems -/

/-! ## The request-phase rule loop -/

theorem request_rules_disabled (env : Env) (r : cache_rule) (rest : List cache_rule)
    (ctx : cache_ctx) (hd : r.state = CACHE_RULE_DISABLED) :
    request_rules env (r :: rest) ctx = request_rules env rest ctx := by
  simp [request_rules, hd]

theorem request_rules_hit (env : Env) (r : cache_rule) (rest : List cache_rule)
    (ctx : cache_ctx) (k : String) (dat : Nat) (hd : r.state ≠ CACHE_RULE_DISABLED)
    (hk : env.cache_build_key r.key = some k)
    (ha : env.pool_alloc_stash ctx.stash.length = true)
    (hx : env.cache_exists k (env.cache_hash_key k) = some dat) :
    request_rules env (r :: rest) ctx
      = (LoopExit.fell,
          { ctx with stash := ctx.stash ++ [⟨r, k, env.cache_hash_key k⟩], data := some dat,
                     state := CACHE_CTX_STATE_HIT },
          [Call.build_key r.key, Call.hash_key k, Call.stash_rule r k (env.cache_hash_key k),
            Call.key_exists k (env.cache_hash_key k)]) := by
  simp [request_rules, hd, hk, cache_stash_rule, ha, hx]

theorem request_rules_pass (env : Env) (r : cache_rule) (rest : List cache_rule)
    (ctx : cache_ctx) (k : String) (hd : r.state ≠ CACHE_RULE_DISABLED)
    (hk : env.cache_build_key r.key = some k)
    (ha : env.pool_alloc_stash ctx.stash.length = true)
    (hx : env.cache_exists k (env.cache_hash_key k) = none)
    (hp : env.cache_test_rule r false = true) :
    request_rules env (r :: rest) ctx
      = (LoopExit.fell,
          { ctx with stash := ctx.stash ++ [⟨r, k, env.cache_hash_key k⟩], data := none,
                     state := CACHE_CTX_STATE_PASS, rule := some r },
          [Call.build_key r.key, Call.hash_key k, Call.stash_rule r k (env.cache_hash_key k),
            Call.key_exists k (env.cache_hash_key k), Call.test_rule r false]) := by
  simp [request_rules, hd, hk, cache_stash_rule, ha, hx, hp]

theorem request_rules_next (env : Env) (r : cache_rule) (rest : List cache_rule)
    (ctx : cache_ctx) (k : String) (hd : r.state ≠ CACHE_RULE_DISABLED)
    (hk : env.cache_build_key r.key = some k)
    (ha : env.pool_alloc_stash ctx.stash.length = true)
    (hx : env.cache_exists k (env.cache_hash_key k) = none)
    (hp : env.cache_test_rule r false = false) :
    request_rules env (r :: rest) ctx
      = ((request_rules env rest
            { ctx with stash := ctx.stash ++ [⟨r, k, env.cache_hash_key k⟩], data := none }).1,
          (request_rules env rest
            { ctx with stash := ctx.stash ++ [⟨r, k, env.cache_hash_key k⟩], data := none }).2.1,
          [Call.build_key r.key, Call.hash_key k, Call.stash_rule r k (env.cache_hash_key k),
            Call.key_exists k (env.cache_hash_key k), Call.test_rule r false]
          ++ (request_rules env rest
            { ctx with stash := ctx.stash ++ [⟨r, k, env.cache_hash_key k⟩], data := none }).2.2) := by
  simp [request_rules, hd, hk, cache_stash_rule, ha, hx, hp]

theorem evaluated_disabled (env : Env) (key : cache_rule → String) (r : cache_rule)
    (rest : List cache_rule) (hd : r.state = CACHE_RULE_DISABLED) :
    evaluated env key (r :: rest) = evaluated env key rest := by
  simp [evaluated, hd]

theorem evaluated_stop (env : Env) (key : cache_rule → String) (r : cache_rule)
    (rest : List cache_rule) (hd : r.state ≠ CACHE_RULE_DISABLED)
    (hs : (rule_hits env key r || rule_passes env r) = true) :
    evaluated env key (r :: rest) = [r] := by
  simp only [evaluated, if_neg hd, hs, if_true]

theorem evaluated_next (env : Env) (key : cache_rule → String) (r : cache_rule)
    (rest : List cache_rule) (hd : r.state ≠ CACHE_RULE_DISABLED)
    (hs : (rule_hits env key r || rule_passes env r) = false) :
    evaluated env key (r :: rest) = r :: evaluated env key rest := by
  simp [evaluated, if_neg hd, hs]

theorem first_decider_disabled (env : Env) (key : cache_rule → String) (r : cache_rule)
    (rest : List cache_rule) (hd : r.state = CACHE_RULE_DISABLED) :
    first_decider env key (r :: rest) = first_decider env key rest := by
  simp [first_decider, enabled, hd]

theorem first_decider_stop (env : Env) (key : cache_rule → String) (r : cache_rule)
    (rest : List cache_rule) (hd : r.state ≠ CACHE_RULE_DISABLED)
    (hs : (rule_hits env key r || rule_passes env r) = true) :
    first_decider env key (r :: rest) = some r := by
  simp only [first_decider, enabled, List.filter_cons, hd, ne_eq, not_false_eq_true,
    decide_True, if_true, List.find?_cons, hs]

theorem first_decider_next (env : Env) (key : cache_rule → String) (r : cache_rule)
    (rest : List cache_rule) (hd : r.state ≠ CACHE_RULE_DISABLED)
    (hs : (rule_hits env key r || rule_passes env r) = false) :
    first_decider env key (r :: rest) = first_decider env key rest := by
  simp only [first_decider, enabled, List.filter_cons, hd, ne_eq, not_false_eq_true,
    decide_True, if_true, List.find?_cons, hs]

theorem request_rules_outcome (env : Env) (key : cache_rule → String)
    (ha : ∀ n, env.pool_alloc_stash n = true) :
    ∀ (rules : List cache_rule) (ctx : cache_ctx),
      (∀ r ∈ rules, r.state ≠ CACHE_RULE_DISABLED → env.cache_build_key r.key = some (key r)) →
      RequestOutcome env key rules ctx (request_rules env rules ctx) := by
  intro rules
  induction rules with
  | nil =>
    intro ctx _
    constructor <;> simp [request_rules, evaluated, first_decider, enabled, stashed_rules]
  | cons r rest ih =>
    intro ctx hk
    have hk' : ∀ q ∈ rest, q.state ≠ CACHE_RULE_DISABLED →
        env.cache_build_key q.key = some (key q) :=
      fun q hq => hk q (List.mem_cons_of_mem _ hq)
    by_cases hd : r.state = CACHE_RULE_DISABLED
    · have h := ih ctx hk'
      rw [request_rules_disabled env r rest ctx hd]
      constructor
      · exact h.fell
      · rw [evaluated_disabled env key r rest hd]; exact h.stash
      · exact h.entry
      · exact h.element
      · rw [first_decider_disabled env key r rest hd]; exact h.hit
      · rw [first_decider_disabled env key r rest hd]; exact h.pass
      · rw [first_decider_disabled env key r rest hd]; exact h.undecided
      · rw [first_decider_disabled env key r rest hd, evaluated_disabled env key r rest hd]
        exact h.last
      · rw [evaluated_disabled env key r rest hd]; exact h.stashed
    · have hkr := hk r (List.mem_cons_self _ _) hd
      cases hx : env.cache_exists (key r) (env.cache_hash_key (key r)) with
      | some dat =>
        have hs : (rule_hits env key r || rule_passes env r) = true := by
          simp [rule_hits, hx]
        rw [request_rules_hit env r rest ctx (key r) dat hd hkr (ha _) hx]
        constructor
        · rfl
        · rw [evaluated_stop env key r rest hd hs]; rfl
        · rfl
        · rfl
        · rw [first_decider_stop env key r rest hd hs]
          intro d h _
          cases h
          exact ⟨rfl, rfl, hx.symm⟩
        · rw [first_decider_stop env key r rest hd hs]
          intro d h hh
          cases h
          simp [rule_hits, hx] at hh
        · rw [first_decider_stop env key r rest hd hs]
          intro h; cases h
        · rw [first_decider_stop env key r rest hd hs, evaluated_stop env key r rest hd hs]
          intro d h; cases h; rfl
        · rw [evaluated_stop env key r rest hd hs]; rfl
      | none =>
        have hh : rule_hits env key r = false := by simp [rule_hits, hx]
        cases hp : env.cache_test_rule r false with
        | true =>
          have hs : (rule_hits env key r || rule_passes env r) = true := by
            simp [rule_passes, hp]
          rw [request_rules_pass env r rest ctx (key r) hd hkr (ha _) hx hp]
          constructor
          · rfl
          · rw [evaluated_stop env key r rest hd hs]; rfl
          · rfl
          · rfl
          · rw [first_decider_stop env key r rest hd hs]
            intro d h hh2
            cases h
            rw [hh] at hh2; cases hh2
          · rw [first_decider_stop env key r rest hd hs]
            intro d h _
            cases h
            exact ⟨rfl, rfl, rfl⟩
          · rw [first_decider_stop env key r rest hd hs]
            intro h; cases h
          · rw [first_decider_stop env key r rest hd hs, evaluated_stop env key r rest hd hs]
            intro d h; cases h; rfl
          · rw [evaluated_stop env key r rest hd hs]; rfl
        | false =>
          have hs : (rule_hits env key r || rule_passes env r) = false := by
            simp [rule_passes, hp, hh]
          have h := ih { ctx with stash := ctx.stash ++ [⟨r, key r, env.cache_hash_key (key r)⟩],
                                  data := none } hk'
          rw [request_rules_next env r rest ctx (key r) hd hkr (ha _) hx hp]
          constructor
          · exact h.fell
          · rw [evaluated_next env key r rest hd hs]
            have := h.stash
            simpa [stash_entry] using this
          · exact h.entry
          · exact h.element
          · rw [first_decider_next env key r rest hd hs]; exact h.hit
          · rw [first_decider_next env key r rest hd hs]; exact h.pass
          · rw [first_decider_next env key r rest hd hs]; exact h.undecided
          · rw [first_decider_next env key r rest hd hs, evaluated_next env key r rest hd hs]
            intro d hdd
            have hl := h.last d hdd
            cases he : evaluated env key rest with
            | nil => rw [he] at hl; simp at hl
            | cons a l => rw [he] at hl; rw [List.getLast?_cons_cons]; exact hl
          · rw [evaluated_next env key r rest hd hs]
            have := h.stashed
            simpa [stashed_rules, Call.stashed_rule] using this

/-! ## Request headers on a fresh context -/

theorem http_headers_request_fell (env : Env) (rules : List cache_rule) (txn : http_txn)
    (ctx : cache_ctx) (hm : txn.meth ≠ HTTP_METH_OTHER) (hs : ctx.state = CACHE_CTX_STATE_INIT)
    (hf : (request_rules env rules ctx).1 = LoopExit.fell) :
    cache_filter_http_headers env rules txn false ctx
      = some ⟨1, (request_rules env rules ctx).2.1,
          Call.housekeeping :: (request_rules env rules ctx).2.2 ++
            (if (request_rules env rules ctx).2.1.state = CACHE_CTX_STATE_HIT
              then [Call.hit (request_rules env rules ctx).2.1.data] else [])⟩ := by
  by_cases hh : (request_rules env rules ctx).2.1.state = CACHE_CTX_STATE_HIT
  · simp [cache_filter_http_headers, hm, hs, hf, hh]
  · simp [cache_filter_http_headers, hm, hs, hf, hh]

/-- C1 (amended).  On a fresh INIT context with an eligible method, all key
builds and stash appends succeeding, the rule that decides the exchange is the
first enabled rule in configured order whose existence check hits or whose
request-side predicate passes: the exchange is a HIT when that rule's existence
check hits and a PASS governed by that rule otherwise; when no enabled rule
hits or passes the state stays INIT and no rule decides. -/
theorem C1_first_hit_or_pass_decides (env : Env) (key : cache_rule → String)
    (rules : List cache_rule) (txn : http_txn)
    (hm : txn.meth ≠ HTTP_METH_OTHER)
    (hk : ∀ r ∈ rules, r.state ≠ CACHE_RULE_DISABLED → env.cache_build_key r.key = some (key r))
    (ha : ∀ n, env.pool_alloc_stash n = true) :
    ∃ ret, cache_filter_http_headers env rules txn false ctx_init = some ret ∧
      deciding_rule ret = first_decider env key rules ∧
      (∀ d, first_decider env key rules = some d →
        ret.ctx.state = if rule_hits env key d then CACHE_CTX_STATE_HIT else CACHE_CTX_STATE_PASS) ∧
      (first_decider env key rules = none → ret.ctx.state = CACHE_CTX_STATE_INIT) := by
  have h := request_rules_outcome env key ha rules ctx_init hk
  refine ⟨_, http_headers_request_fell env rules txn ctx_init hm rfl h.fell, ?_, ?_, ?_⟩
  · cases hfd : first_decider env key rules with
    | none =>
      have h1 : (request_rules env rules ctx_init).2.1.state = CACHE_CTX_STATE_INIT :=
        (h.undecided hfd).1
      simp only [deciding_rule, h1]
    | some d =>
      cases hh : rule_hits env key d with
      | true =>
        have h1 := (h.hit d hfd hh).1
        have h3 := h.last d hfd
        have h4 : stashed_rules (Call.housekeeping :: (request_rules env rules ctx_init).2.2 ++
            [Call.hit (request_rules env rules ctx_init).2.1.data])
            = evaluated env key rules := by
          rw [← h.stashed]
          simp [stashed_rules, Call.stashed_rule]
        simp only [deciding_rule, h1, if_true, h4, h3]
      | false =>
        have h1 := h.pass d hfd hh
        simp only [deciding_rule, h1.1, h1.2.1]
  · intro d hfd
    cases hh : rule_hits env key d with
    | true => simpa using (h.hit d hfd hh).1
    | false => simpa using (h.pass d hfd hh).1
  · intro hfd
    exact (h.undecided hfd).1

/-- Witness for C1 (amended): rules `c` (disabled), `a`, `b`. -/
theorem C1_first_hit_or_pass_decides_witness :
    ∃ ret, cache_filter_http_headers env_ab [rule_c, rule_a, rule_b] txn_get false ctx_init
        = some ret ∧
      deciding_rule ret = first_decider env_ab key_ab [rule_c, rule_a, rule_b] ∧
      (∀ d, first_decider env_ab key_ab [rule_c, rule_a, rule_b] = some d →
        ret.ctx.state = if rule_hits env_ab key_ab d then CACHE_CTX_STATE_HIT
          else CACHE_CTX_STATE_PASS) ∧
      (first_decider env_ab key_ab [rule_c, rule_a, rule_b] = none →
        ret.ctx.state = CACHE_CTX_STATE_INIT) :=
  C1_first_hit_or_pass_decides env_ab key_ab [rule_c, rule_a, rule_b] txn_get (by decide)
    (by decide) (fun _ => rfl)

/-- C1 (counterexample).  Rules `a`, `b` in this order, both enabled, keys
built and stashed: rule `a` is not in the store and its request-side predicate
passes, rule `b` is in the store.  The claim names rule `b` (the first enabled
rule whose existence check hits); the handler stops at rule `a` with state PASS
and never looks rule `b` up. -/
theorem C1_counterexample :
    claimed_decider env_ab key_ab [rule_a, rule_b] = some rule_b ∧
    (cache_filter_http_headers env_ab [rule_a, rule_b] txn_get false ctx_init).map
        (fun ret => (ret.ctx.state, deciding_rule ret))
      = some (CACHE_CTX_STATE_PASS, some rule_a) ∧
    rule_a ≠ rule_b := by
  decide

/-- C5.  With a method outside the eligible set (`HTTP_METH_OTHER`), request
header processing on a freshly attached context leaves state BYPASS and an
empty stash, and the only collaborator call is the housekeeping tick: no key
build, no existence check, no predicate evaluation. -/
theorem C5_ineligible_method_bypasses (env : Env) (rules : List cache_rule) (txn : http_txn)
    (hm : txn.meth = HTTP_METH_OTHER) :
    ∃ ret, cache_filter_http_headers env rules txn false ctx_init = some ret ∧
      ret.ret = 1 ∧ ret.ctx.state = CACHE_CTX_STATE_BYPASS ∧ ret.ctx.stash = [] ∧
      ret.calls = [Call.housekeeping] := by
  refine ⟨⟨1, { ctx_init with state := CACHE_CTX_STATE_BYPASS }, [Call.housekeeping]⟩, ?_,
    rfl, rfl, rfl, rfl⟩
  simp [cache_filter_http_headers, hm, ctx_init]

/-- Witness for C5: the example rules with an ineligible method. -/
theorem C5_ineligible_method_bypasses_witness :
    ∃ ret, cache_filter_http_headers env_ab [rule_a, rule_b] txn_other false ctx_init
        = some ret ∧
      ret.ret = 1 ∧ ret.ctx.state = CACHE_CTX_STATE_BYPASS ∧ ret.ctx.stash = [] ∧
      ret.calls = [Call.housekeeping] :=
  C5_ineligible_method_bypasses env_ab [rule_a, rule_b] txn_other rfl

/-! ## The evaluated rules -/

theorem evaluated_initial_segment (env : Env) (key : cache_rule → String) :
    ∀ rules : List cache_rule, evaluated env key rules <+: enabled rules := by
  intro rules
  induction rules with
  | nil => simp [evaluated, enabled]
  | cons r rest ih =>
    by_cases hd : r.state = CACHE_RULE_DISABLED
    · rw [evaluated_disabled env key r rest hd]
      simpa [enabled, hd] using ih
    · have he : enabled (r :: rest) = r :: enabled rest := by simp [enabled, hd]
      cases hs : (rule_hits env key r || rule_passes env r) with
      | true =>
        rw [evaluated_stop env key r rest hd hs, he]
        exact ⟨enabled rest, rfl⟩
      | false =>
        rw [evaluated_next env key r rest hd hs, he]
        exact (List.prefix_cons_inj r).2 ih

theorem evaluated_undecided (env : Env) (key : cache_rule → String) :
    ∀ rules : List cache_rule, first_decider env key rules = none →
      evaluated env key rules = enabled rules := by
  intro rules
  induction rules with
  | nil => intro _; simp [evaluated, enabled]
  | cons r rest ih =>
    intro h
    by_cases hd : r.state = CACHE_RULE_DISABLED
    · rw [first_decider_disabled env key r rest hd] at h
      rw [evaluated_disabled env key r rest hd, ih h]
      simp [enabled, hd]
    · have he : enabled (r :: rest) = r :: enabled rest := by simp [enabled, hd]
      cases hs : (rule_hits env key r || rule_passes env r) with
      | true =>
        rw [first_decider_stop env key r rest hd hs] at h
        cases h
      | false =>
        rw [first_decider_next env key r rest hd hs] at h
        rw [evaluated_next env key r rest hd hs, ih h, he]

theorem evaluated_dropLast (env : Env) (key : cache_rule → String) :
    ∀ rules : List cache_rule, ∀ r ∈ (evaluated env key rules).dropLast,
      (rule_hits env key r || rule_passes env r) = false := by
  intro rules
  induction rules with
  | nil => intro r hr; simp [evaluated] at hr
  | cons q rest ih =>
    intro r hr
    by_cases hd : q.state = CACHE_RULE_DISABLED
    · rw [evaluated_disabled env key q rest hd] at hr
      exact ih r hr
    · cases hs : (rule_hits env key q || rule_passes env q) with
      | true =>
        rw [evaluated_stop env key q rest hd hs] at hr
        simp at hr
      | false =>
        rw [evaluated_next env key q rest hd hs] at hr
        cases he : evaluated env key rest with
        | nil => rw [he] at hr; simp at hr
        | cons a l =>
          rw [he, List.dropLast_cons₂] at hr
          rcases List.mem_cons.1 hr with h | h
          · rw [h]; exact hs
          · exact ih r (by rw [he]; exact h)

/-- C6.  On a fresh INIT context with an eligible method, key builds and stash
appends succeeding, the stash afterwards holds exactly one node per evaluated
rule, in evaluation order, each carrying the rule, the key built for it and the
hash of that key.  The evaluated rules are an initial segment of the enabled
rules in configured order (so no disabled rule has a node): none of them but
the last hits or passes, the last is the rule that hit or passed when there is
one (so no rule after it has a node), and they are all enabled rules when no
rule hits or passes. -/
theorem C6_stash_records_evaluated_rules (env : Env) (key : cache_rule → String)
    (rules : List cache_rule) (txn : http_txn)
    (hm : txn.meth ≠ HTTP_METH_OTHER)
    (hk : ∀ r ∈ rules, r.state ≠ CACHE_RULE_DISABLED → env.cache_build_key r.key = some (key r))
    (ha : ∀ n, env.pool_alloc_stash n = true) :
    ∃ ret, cache_filter_http_headers env rules txn false ctx_init = some ret ∧
      ret.ctx.stash = (evaluated env key rules).map
        (fun r => (⟨r, key r, env.cache_hash_key (key r)⟩ : cache_rule_stash)) ∧
      evaluated env key rules <+: enabled rules ∧
      (∀ r ∈ (evaluated env key rules).dropLast,
        rule_hits env key r = false ∧ rule_passes env r = false) ∧
      (∀ d, first_decider env key rules = some d →
        (evaluated env key rules).getLast? = some d) ∧
      (first_decider env key rules = none → evaluated env key rules = enabled rules) := by
  have h := request_rules_outcome env key ha rules ctx_init hk
  refine ⟨_, http_headers_request_fell env rules txn ctx_init hm rfl h.fell, ?_,
    evaluated_initial_segment env key rules, ?_, h.last, evaluated_undecided env key rules⟩
  · show (request_rules env rules ctx_init).2.1.stash = _
    rw [h.stash]
    rfl
  · intro r hr
    have := evaluated_dropLast env key rules r hr
    simpa using this

/-- Witness for C6: rules `c` (disabled), `b`, `a`; rule `b` is in the store. -/
theorem C6_stash_records_evaluated_rules_witness :
    ∃ ret, cache_filter_http_headers env_ab [rule_c, rule_b, rule_a] txn_get false ctx_init
        = some ret ∧
      ret.ctx.stash = (evaluated env_ab key_ab [rule_c, rule_b, rule_a]).map
        (fun r => (⟨r, key_ab r, env_ab.cache_hash_key (key_ab r)⟩ : cache_rule_stash)) ∧
      evaluated env_ab key_ab [rule_c, rule_b, rule_a] <+: enabled [rule_c, rule_b, rule_a] ∧
      (∀ r ∈ (evaluated env_ab key_ab [rule_c, rule_b, rule_a]).dropLast,
        rule_hits env_ab key_ab r = false ∧ rule_passes env_ab r = false) ∧
      (∀ d, first_decider env_ab key_ab [rule_c, rule_b, rule_a] = some d →
        (evaluated env_ab key_ab [rule_c, rule_b, rule_a]).getLast? = some d) ∧
      (first_decider env_ab key_ab [rule_c, rule_b, rule_a] = none →
        evaluated env_ab key_ab [rule_c, rule_b, rule_a] = enabled [rule_c, rule_b, rule_a]) :=
  C6_stash_records_evaluated_rules env_ab key_ab [rule_c, rule_b, rule_a] txn_get (by decide)
    (by decide) (fun _ => rfl)

/-! ## Stopping at a hit -/

theorem request_rules_frame (env : Env) :
    ∀ (rules : List cache_rule) (ctx : cache_ctx),
      (request_rules env rules ctx).2.1.entry = ctx.entry ∧
      (request_rules env rules ctx).2.1.element = ctx.element := by
  intro rules
  induction rules with
  | nil => intro ctx; simp [request_rules]
  | cons r rest ih =>
    intro ctx
    by_cases hd : r.state = CACHE_RULE_DISABLED
    · rw [request_rules_disabled env r rest ctx hd]; exact ih ctx
    · cases hk : env.cache_build_key r.key with
      | none => simp [request_rules, hd, hk]
      | some k =>
        cases ha : env.pool_alloc_stash ctx.stash.length with
        | false => simp [request_rules, hd, hk, cache_stash_rule, ha]
        | true =>
          cases hx : env.cache_exists k (env.cache_hash_key k) with
          | some dat => rw [request_rules_hit env r rest ctx k dat hd hk ha hx]; exact ⟨rfl, rfl⟩
          | none =>
            cases hp : env.cache_test_rule r false with
            | true => rw [request_rules_pass env r rest ctx k hd hk ha hx hp]; exact ⟨rfl, rfl⟩
            | false =>
              rw [request_rules_next env r rest ctx k hd hk ha hx hp]
              exact ih _

theorem request_rules_passed_over (env : Env) (rest : List cache_rule) :
    ∀ (pre : List cache_rule) (ctx : cache_ctx), (∀ q ∈ pre, passed_over env q) →
      (∀ n, ctx.stash.length ≤ n → n < ctx.stash.length + (enabled pre).length →
        env.pool_alloc_stash n = true) →
      request_rules env (pre ++ rest) ctx
        = ((request_rules env rest (request_rules env pre ctx).2.1).1,
           (request_rules env rest (request_rules env pre ctx).2.1).2.1,
           (request_rules env pre ctx).2.2
             ++ (request_rules env rest (request_rules env pre ctx).2.1).2.2) ∧
      (request_rules env pre ctx).2.1.stash.length
        = ctx.stash.length + (enabled pre).length := by
  intro pre
  induction pre with
  | nil => intro ctx _ _; simp [request_rules, enabled]
  | cons r pre ih =>
    intro ctx hpre ha
    have hpre' : ∀ q ∈ pre, passed_over env q := fun q hq => hpre q (List.mem_cons_of_mem _ hq)
    by_cases hd : r.state = CACHE_RULE_DISABLED
    · have he : enabled (r :: pre) = enabled pre := by simp [enabled, hd]
      rw [List.cons_append, request_rules_disabled env r _ ctx hd,
        request_rules_disabled env r pre ctx hd, he]
      rw [he] at ha
      exact ih ctx hpre' ha
    · have he : (enabled (r :: pre)).length = (enabled pre).length + 1 := by
        simp [enabled, hd]
      rw [he] at ha
      rcases hpre r (List.mem_cons_self _ _) with h | ⟨k, hk, hx, hp⟩
      · exact absurd h hd
      · have ha0 : env.pool_alloc_stash ctx.stash.length = true :=
          ha _ (Nat.le_refl _) (by omega)
        have hih := ih { ctx with stash := ctx.stash ++ [⟨r, k, env.cache_hash_key k⟩],
                                  data := none } hpre'
          (by
            intro n h1 h2
            simp only [List.length_append, List.length_singleton] at h1 h2
            exact ha n (by omega) (by omega))
        rw [List.cons_append, request_rules_next env r _ ctx k hd hk ha0 hx hp,
          request_rules_next env r pre ctx k hd hk ha0 hx hp, hih.1, he]
        refine ⟨by simp, ?_⟩
        have := hih.2
        simp only [List.length_append, List.length_singleton] at this
        simp only [this]
        omega

/-- C7.  On a fresh INIT context with an eligible method, let the loop reach
rule `R` (every rule before it is passed over, the stash appends up to `R`
succeeding) and let the existence check for `R`'s key hit with handle `dat`.
Then the state is HIT, `ctx->data` is that handle, `ctx->entry` is null, and
the handler stops at `R`: its calls end with the key build, hash, stash and
existence check for `R` followed by the serve call, and the outcome is the
same as if no rule followed `R`. -/
theorem C7_hit_stops_iteration (env : Env) (pre post : List cache_rule) (R : cache_rule)
    (k : String) (dat : Nat) (txn : http_txn)
    (hm : txn.meth ≠ HTTP_METH_OTHER)
    (ha : ∀ n, n ≤ (enabled pre).length → env.pool_alloc_stash n = true)
    (hpre : ∀ q ∈ pre, passed_over env q)
    (hR : R.state ≠ CACHE_RULE_DISABLED)
    (hk : env.cache_build_key R.key = some k)
    (hx : env.cache_exists k (env.cache_hash_key k) = some dat) :
    ∃ ret, cache_filter_http_headers env (pre ++ R :: post) txn false ctx_init = some ret ∧
      ret.ctx.state = CACHE_CTX_STATE_HIT ∧
      ret.ctx.data = some dat ∧
      ret.ctx.entry = none ∧
      ret.calls = Call.housekeeping :: (request_rules env pre ctx_init).2.2 ++
        [Call.build_key R.key, Call.hash_key k, Call.stash_rule R k (env.cache_hash_key k),
          Call.key_exists k (env.cache_hash_key k), Call.hit (some dat)] ∧
      cache_filter_http_headers env (pre ++ [R]) txn false ctx_init = some ret := by
  have key : ∀ rest : List cache_rule,
      request_rules env (pre ++ R :: rest) ctx_init
        = (LoopExit.fell,
            { (request_rules env pre ctx_init).2.1 with
                stash := (request_rules env pre ctx_init).2.1.stash
                  ++ [⟨R, k, env.cache_hash_key k⟩],
                data := some dat, state := CACHE_CTX_STATE_HIT },
            (request_rules env pre ctx_init).2.2 ++
              [Call.build_key R.key, Call.hash_key k, Call.stash_rule R k (env.cache_hash_key k),
                Call.key_exists k (env.cache_hash_key k)]) := by
    intro rest
    have hp := request_rules_passed_over env (R :: rest) pre ctx_init hpre
      (fun n _ h2 => ha n (by simp only [ctx_init, List.length_nil] at h2; omega))
    have hlen : (request_rules env pre ctx_init).2.1.stash.length = (enabled pre).length := by
      rw [(request_rules_passed_over env [] pre ctx_init hpre
        (fun n _ h2 => ha n (by simp only [ctx_init, List.length_nil] at h2; omega))).2]
      simp [ctx_init]
    rw [hp.1, request_rules_hit env R rest _ k dat hR hk (by rw [hlen]; exact ha _ (Nat.le_refl _)) hx]
  have hval : ∀ rest : List cache_rule,
      cache_filter_http_headers env (pre ++ R :: rest) txn false ctx_init
        = some ⟨1,
            { (request_rules env pre ctx_init).2.1 with
                stash := (request_rules env pre ctx_init).2.1.stash
                  ++ [⟨R, k, env.cache_hash_key k⟩],
                data := some dat, state := CACHE_CTX_STATE_HIT },
            Call.housekeeping :: (request_rules env pre ctx_init).2.2 ++
              [Call.build_key R.key, Call.hash_key k, Call.stash_rule R k (env.cache_hash_key k),
                Call.key_exists k (env.cache_hash_key k), Call.hit (some dat)]⟩ := by
    intro rest
    rw [http_headers_request_fell env _ txn ctx_init hm rfl (by rw [key rest]), key rest]
    simp
  exact ⟨_, hval post, rfl, rfl, (request_rules_frame env pre ctx_init).1, rfl, hval []⟩

/-- Witness for C7: rule `c` is disabled, rule `d` misses and fails, rule `b`
is in the store, rule `a` follows it. -/
theorem C7_hit_stops_iteration_witness :
    ∃ ret, cache_filter_http_headers env_ab ([rule_c, rule_d] ++ rule_b :: [rule_a]) txn_get
        false ctx_init = some ret ∧
      ret.ctx.state = CACHE_CTX_STATE_HIT ∧
      ret.ctx.data = some 7 ∧
      ret.ctx.entry = none ∧
      ret.calls = Call.housekeeping :: (request_rules env_ab [rule_c, rule_d] ctx_init).2.2 ++
        [Call.build_key rule_b.key, Call.hash_key "/b",
          Call.stash_rule rule_b "/b" (env_ab.cache_hash_key "/b"),
          Call.key_exists "/b" (env_ab.cache_hash_key "/b"), Call.hit (some 7)] ∧
      cache_filter_http_headers env_ab ([rule_c, rule_d] ++ [rule_b]) txn_get false ctx_init
        = some ret :=
  C7_hit_stops_iteration env_ab [rule_c, rule_d] [rule_a] rule_b "/b" 7 txn_get (by decide)
    (fun _ _ => rfl)
    (fun q hq => by
      rcases List.mem_cons.1 hq with h | h
      · exact Or.inl (by rw [h]; rfl)
      · rw [List.mem_singleton.1 h]; exact Or.inr ⟨"/c", rfl, rfl, rfl⟩)
    (by decide) rfl rfl

/-! ## Response headers -/

theorem http_headers_response_other (env : Env) (rules : List cache_rule) (txn : http_txn)
    (ctx : cache_ctx) (hi : ctx.state ≠ CACHE_CTX_STATE_INIT)
    (hp : ctx.state ≠ CACHE_CTX_STATE_PASS) :
    cache_filter_http_headers env rules txn true ctx = some ⟨1, ctx, []⟩ := by
  simp [cache_filter_http_headers, hi, hp]

theorem http_headers_response_pass (env : Env) (rules : List cache_rule) (txn : http_txn)
    (ctx : cache_ctx) (hp : ctx.state = CACHE_CTX_STATE_PASS) :
    cache_filter_http_headers env rules txn true ctx = response_pass env txn ctx [] := by
  simp [cache_filter_http_headers, hp]

theorem code_scan_iff (status : Int) :
    ∀ cc : List Int, code_scan cc status = true ↔ status ∈ cc := by
  intro cc
  induction cc with
  | nil => simp [code_scan]
  | cons c cc ih =>
    by_cases h : c = status
    · simp [code_scan, h]
    · have h2 : ¬ status = c := fun e => h e.symm
      simp [code_scan, h, h2, ih]

theorem code_valid_iff (rule : cache_rule) (status : Int) :
    code_valid rule.code status = true ↔ status_accepted rule status := by
  unfold code_valid status_accepted
  by_cases h : rule.code = []
  · simp [h]
  · simp [h, code_scan_iff]

theorem stash_scan_head (ctx : cache_ctx) (head : cache_rule_stash)
    (rest : List cache_rule_stash) (hs : ctx.stash = head :: rest) :
    ∀ l : List cache_rule_stash, stash_scan ctx l =
      match l with
      | [] => none
      | s :: _ => if some head.rule = ctx.rule then some (s.key, s.hash) else none := by
  intro l
  induction l with
  | nil => simp [stash_scan]
  | cons s l ih =>
    by_cases h : some head.rule = ctx.rule
    · simp [stash_scan, hs, h]
    · simp only [stash_scan, hs, h, if_false]
      rw [ih]
      cases l <;> simp [h]

/-- C8.  In state PASS with a governing rule, the handler's `valid` flag is set
exactly when the rule's accepted-code list is empty or contains the response
status; when the status is not accepted the handler issues no call at all (in
particular no create), leaves the context as it is (state PASS, never CREATE)
and returns 1. -/
theorem C8_rejected_status_declines (env : Env) (rules : List cache_rule) (txn : http_txn)
    (ctx : cache_ctx) (rule : cache_rule)
    (hs : ctx.state = CACHE_CTX_STATE_PASS) (hr : ctx.rule = some rule) :
    (code_valid rule.code txn.status = true ↔ (rule.code = [] ∨ txn.status ∈ rule.code)) ∧
    (¬ (rule.code = [] ∨ txn.status ∈ rule.code) →
      cache_filter_http_headers env rules txn true ctx = some ⟨1, ctx, []⟩ ∧
      ctx.state = CACHE_CTX_STATE_PASS) := by
  refine ⟨code_valid_iff rule txn.status, fun hn => ⟨?_, hs⟩⟩
  have hv : code_valid rule.code txn.status = false := by
    cases h : code_valid rule.code txn.status with
    | false => rfl
    | true => exact absurd ((code_valid_iff rule txn.status).1 h) hn
  rw [http_headers_response_pass env rules txn ctx hs]
  simp [response_pass, hr, hv]

/-- Witness for C8: status 404 under rule `b`, which accepts 200 only. -/
theorem C8_rejected_status_declines_witness :
    ¬ (rule_b.code = [] ∨ (404 : Int) ∈ rule_b.code) ∧
    code_valid rule_b.code (404 : Int) = false ∧
    cache_filter_http_headers env_ab [rule_a, rule_b] ⟨HTTP_METH_GET, 404⟩ true ctx_pass_b
      = some ⟨1, ctx_pass_b, []⟩ :=
  ⟨by decide, by decide,
    ((C8_rejected_status_declines env_ab [rule_a, rule_b] ⟨HTTP_METH_GET, 404⟩ ctx_pass_b rule_b
      rfl rfl).2 (by decide)).1⟩

theorem response_pass_head_mismatch (env : Env) (txn : http_txn) (ctx : cache_ctx)
    (rule : cache_rule) (head : cache_rule_stash) (rest : List cache_rule_stash)
    (calls : List Call) (hr : ctx.rule = some rule) (hs : ctx.stash = head :: rest)
    (hne : head.rule ≠ rule) :
    response_pass env txn ctx calls = some ⟨1, ctx, calls⟩ := by
  have hscan : stash_scan ctx ctx.stash = none := by
    rw [stash_scan_head ctx head rest hs ctx.stash, hs, hr]
    simp [hne]
  by_cases hv : code_valid rule.code txn.status = false
  · simp [response_pass, hr, hv]
  · simp [response_pass, hr, hv, hscan]

theorem response_pass_head_match (env : Env) (txn : http_txn) (ctx : cache_ctx)
    (rule : cache_rule) (head : cache_rule_stash) (rest : List cache_rule_stash)
    (calls : List Call) (hr : ctx.rule = some rule) (hs : ctx.stash = head :: rest)
    (he : head.rule = rule) (hv : code_valid rule.code txn.status = true) :
    response_pass env txn ctx calls
      = some ⟨1, cache_create env ctx head.key head.hash,
          calls ++ [Call.create head.key head.hash]⟩ := by
  have hscan : stash_scan ctx ctx.stash = some (head.key, head.hash) := by
    rw [stash_scan_head ctx head rest hs ctx.stash, hs, hr]
    simp [he]
  simp [response_pass, hr, hv, hscan]

/-- C3 (the code at the failing input).  Rules `a`, `b`, `d` are enabled,
nothing is in the store and no request-side predicate passes, so request
headers stash the three rules and leave INIT; the response-side predicate
passes for rule `b` only and the status 200 is accepted by rule `b`.  After
response headers the state is PASS governed by rule `b`, the stash holds a node
for rule `b` with key `/b`, and yet no create call was issued.  The same
happens when the handler is entered directly in that PASS context: the scan
compares the rule of the head node on every round. -/
theorem C3_scan_reads_head_only :
    (run [Site.http_headers env_resp [rule_a, rule_b, rule_d] txn_get false,
          Site.http_headers env_resp [rule_a, rule_b, rule_d] txn_get true]
        ⟨ctx_init, []⟩).map (fun w => (w.ctx, w.log.any Call.is_create))
      = some (ctx_pass_b, false) ∧
    first_stash_for rule_b ctx_pass_b.stash = some ⟨rule_b, "/b", 2⟩ ∧
    code_valid rule_b.code txn_get.status = true ∧
    cache_filter_http_headers env_resp [rule_a, rule_b, rule_d] txn_get true ctx_pass_b
      = some ⟨1, ctx_pass_b, []⟩ := by
  decide

/-- C4 (counterexample).  The request has an ineligible method, so the request
phase ends in BYPASS; rule `b`'s response-side predicate passes.  After
response headers the state is still BYPASS, no governing rule is set and no
predicate was evaluated. -/
theorem C4_counterexample :
    env_resp.cache_test_rule rule_b true = true ∧
    (cache_filter_http_headers env_resp [rule_a, rule_b] txn_other false ctx_init).map
        (fun ret => ret.ctx.state) = some CACHE_CTX_STATE_BYPASS ∧
    (run [Site.http_headers env_resp [rule_a, rule_b] txn_other false,
          Site.http_headers env_resp [rule_a, rule_b] txn_other true]
        ⟨ctx_init, []⟩).map (fun w => (w.ctx.state, w.ctx.rule, w.log))
      = some (CACHE_CTX_STATE_BYPASS, none, [Call.housekeeping]) := by
  decide

/-- C4 (amended).  In state BYPASS the response-header call runs no rule pass:
whatever the rule list and the predicate outcomes, it makes no collaborator
call (no predicate evaluation, no create), leaves the context as it is and
returns 1. -/
theorem C4_bypass_skips_response_pass (env : Env) (rules : List cache_rule) (txn : http_txn)
    (ctx : cache_ctx) (hs : ctx.state = CACHE_CTX_STATE_BYPASS) :
    cache_filter_http_headers env rules txn true ctx = some ⟨1, ctx, []⟩ :=
  http_headers_response_other env rules txn ctx (by rw [hs]; decide) (by rw [hs]; decide)

/-- Witness for C4 (amended): the context left by a request with an
ineligible method. -/
theorem C4_bypass_skips_response_pass_witness :
    cache_filter_http_headers env_resp [rule_a, rule_b] txn_other true
        { ctx_init with state := CACHE_CTX_STATE_BYPASS }
      = some ⟨1, { ctx_init with state := CACHE_CTX_STATE_BYPASS }, []⟩ :=
  C4_bypass_skips_response_pass env_resp [rule_a, rule_b] txn_other
    { ctx_init with state := CACHE_CTX_STATE_BYPASS } rfl

/-! ## Body chunks and end of message -/

theorem forward_data_inert (upd : update_outcome) (isResp : Bool) (len : Nat) (ctx : cache_ctx)
    (h : ctx.state ≠ CACHE_CTX_STATE_CREATE ∨ isResp = false) :
    cache_filter_http_forward_data upd isResp len ctx = some ⟨to_int len, ctx, []⟩ := by
  rcases h with h | h
  · simp [cache_filter_http_forward_data, h]
  · simp [cache_filter_http_forward_data, h]

theorem forward_data_write_ok (upd : update_outcome) (len : Nat) (ctx : cache_ctx)
    (hs : ctx.state = CACHE_CTX_STATE_CREATE) (hok : upd.ok = true) :
    cache_filter_http_forward_data upd true len ctx
      = some ⟨to_int len, { ctx with element := upd.element }, [Call.update len true]⟩ := by
  simp [cache_filter_http_forward_data, hs, cache_update, hok]

theorem forward_data_write_fail (upd : update_outcome) (len : Nat) (ctx : cache_ctx)
    (e : cache_entry) (hs : ctx.state = CACHE_CTX_STATE_CREATE) (he : ctx.entry = some e)
    (hok : upd.ok = false) :
    cache_filter_http_forward_data upd true len ctx
      = some ⟨to_int len,
          { ctx with element := upd.element,
                     entry := some { e with state := CACHE_ENTRY_STATE_INVALID },
                     state := CACHE_CTX_STATE_PASS },
          [Call.update len false]⟩ := by
  simp [cache_filter_http_forward_data, hs, cache_update, hok, he]

theorem http_end_inert (isResp : Bool) (ctx : cache_ctx)
    (h : ctx.state ≠ CACHE_CTX_STATE_CREATE ∨ isResp = false) :
    cache_filter_http_end isResp ctx = ⟨1, ctx, []⟩ := by
  rcases h with h | h
  · simp [cache_filter_http_end, h]
  · simp [cache_filter_http_end, h]

theorem step_body_inert (w : World) (s : Site) (hb : s.is_body = true)
    (hs : w.ctx.state ≠ CACHE_CTX_STATE_CREATE) : step w s = some w := by
  cases s with
  | http_headers env rules txn isResp => simp [Site.is_body] at hb
  | http_forward_data upd isResp len =>
    simp [step, forward_data_inert upd isResp len w.ctx (Or.inl hs)]
  | http_end isResp =>
    simp [step, http_end_inert isResp w.ctx (Or.inl hs)]

theorem run_body_inert :
    ∀ (later : List Site) (w : World), (∀ s ∈ later, s.is_body = true) →
      w.ctx.state ≠ CACHE_CTX_STATE_CREATE → run later w = some w := by
  intro later
  induction later with
  | nil => intro w _ _; rfl
  | cons s later ih =>
    intro w hb hs
    simp only [run, step_body_inert w s (hb s (List.mem_cons_self _ _)) hs]
    exact ih w (fun t ht => hb t (List.mem_cons_of_mem _ ht)) hs

/-- C9 (counterexample).  In state CREATE a response chunk of length zero is
handed to the store's write like any other chunk: a write call of length 0 is
issued, and when the store reports failure the entry is marked invalid and the
state becomes PASS. -/
theorem C9_counterexample :
    cache_filter_http_forward_data upd_fail true 0 ctx_create
      = some ⟨0, { ctx_create with entry := some ⟨2, CACHE_ENTRY_STATE_INVALID⟩,
                                   state := CACHE_CTX_STATE_PASS },
          [Call.update 0 false]⟩ ∧
    (cache_filter_http_forward_data upd_ok true 0 ctx_create).map (fun ret => ret.calls)
      = some [Call.update 0 true] := by
  decide

/-- C9 (amended).  A zero-length chunk issues no store write and leaves the
context unchanged in every state other than CREATE, and for a request-side
chunk in any state.  In state CREATE a zero-length response chunk is written to
the store as a write of length 0; the state stays CREATE when that write
succeeds and becomes PASS when it fails.  The handler returns 0 in all cases. -/
theorem C9_zero_length_chunk (upd : update_outcome) (isResp : Bool) (ctx : cache_ctx) :
    ((ctx.state ≠ CACHE_CTX_STATE_CREATE ∨ isResp = false) →
      cache_filter_http_forward_data upd isResp 0 ctx = some ⟨0, ctx, []⟩) ∧
    (∀ e, ctx.state = CACHE_CTX_STATE_CREATE → isResp = true → ctx.entry = some e →
      ∃ ret, cache_filter_http_forward_data upd isResp 0 ctx = some ret ∧
        ret.ret = 0 ∧ ret.calls = [Call.update 0 upd.ok] ∧
        ret.ctx.state = if upd.ok then CACHE_CTX_STATE_CREATE else CACHE_CTX_STATE_PASS) := by
  constructor
  · intro h
    exact forward_data_inert upd isResp 0 ctx h
  · intro e hs hr he
    subst hr
    cases hok : upd.ok with
    | true =>
      exact ⟨_, forward_data_write_ok upd 0 ctx hs hok, rfl, rfl, by simp [hs]⟩
    | false =>
      exact ⟨_, forward_data_write_fail upd 0 ctx e hs he hok, rfl, rfl, by simp⟩

/-- Witness for C9 (amended): a zero-length response chunk in state PASS, and
one in state CREATE with a failing store. -/
theorem C9_zero_length_chunk_witness :
    cache_filter_http_forward_data upd_fail true 0 ctx_pass_b = some ⟨0, ctx_pass_b, []⟩ ∧
    ∃ ret, cache_filter_http_forward_data upd_fail true 0 ctx_create = some ret ∧
      ret.ret = 0 ∧ ret.calls = [Call.update 0 upd_fail.ok] ∧
      ret.ctx.state = if upd_fail.ok then CACHE_CTX_STATE_CREATE else CACHE_CTX_STATE_PASS :=
  ⟨(C9_zero_length_chunk upd_fail true ctx_pass_b).1 (Or.inl (by decide)),
   (C9_zero_length_chunk upd_fail true ctx_create).2 ⟨2, CACHE_ENTRY_STATE_CREATING⟩ rfl rfl rfl⟩

/-- C10.  In state CREATE with a live entry, when the write of a response body
chunk fails: the handler still returns the chunk length, the live entry is
marked invalid and the state becomes PASS; from then on every body chunk (in
either direction, whatever the store would answer) makes no collaborator call,
so no write, and end-of-message makes none either, so no finalize; the context
stays as the failing write left it. -/
theorem C10_write_failure_abandons_capture (upd : update_outcome) (len : Nat) (ctx : cache_ctx)
    (e : cache_entry) (later : List Site)
    (hs : ctx.state = CACHE_CTX_STATE_CREATE) (he : ctx.entry = some e)
    (hf : upd.ok = false) (hl : ∀ s ∈ later, s.is_body = true) :
    ∃ ret, cache_filter_http_forward_data upd true len ctx = some ret ∧
      ret.ret = to_int len ∧
      ret.calls = [Call.update len false] ∧
      ret.ctx.state = CACHE_CTX_STATE_PASS ∧
      ret.ctx.entry = some { e with state := CACHE_ENTRY_STATE_INVALID } ∧
      (∀ upd2 isResp len2, cache_filter_http_forward_data upd2 isResp len2 ret.ctx
        = some ⟨to_int len2, ret.ctx, []⟩) ∧
      (∀ isResp, cache_filter_http_end isResp ret.ctx = ⟨1, ret.ctx, []⟩) ∧
      run later ⟨ret.ctx, ret.calls⟩ = some ⟨ret.ctx, ret.calls⟩ := by
  refine ⟨_, forward_data_write_fail upd len ctx e hs he hf, rfl, rfl, rfl, rfl, ?_, ?_, ?_⟩
  · intro upd2 isResp len2
    exact forward_data_inert upd2 isResp len2 _ (Or.inl (by simp))
  · intro isResp
    exact http_end_inert isResp _ (Or.inl (by simp))
  · exact run_body_inert later _ hl (by simp)

/-- Witness for C10: a failing write of 50 bytes, followed by a chunk of 10
bytes that the store would accept and by end-of-message. -/
theorem C10_write_failure_abandons_capture_witness :
    ∃ ret, cache_filter_http_forward_data upd_fail true 50 ctx_create = some ret ∧
      ret.ret = to_int 50 ∧
      ret.calls = [Call.update 50 false] ∧
      ret.ctx.state = CACHE_CTX_STATE_PASS ∧
      ret.ctx.entry = some { (⟨2, CACHE_ENTRY_STATE_CREATING⟩ : cache_entry) with
        state := CACHE_ENTRY_STATE_INVALID } ∧
      (∀ upd2 isResp len2, cache_filter_http_forward_data upd2 isResp len2 ret.ctx
        = some ⟨to_int len2, ret.ctx, []⟩) ∧
      (∀ isResp, cache_filter_http_end isResp ret.ctx = ⟨1, ret.ctx, []⟩) ∧
      run [Site.http_forward_data upd_ok true 10, Site.http_end true] ⟨ret.ctx, ret.calls⟩
        = some ⟨ret.ctx, ret.calls⟩ :=
  C10_write_failure_abandons_capture upd_fail 50 ctx_create ⟨2, CACHE_ENTRY_STATE_CREATING⟩
    [Site.http_forward_data upd_ok true 10, Site.http_end true] rfl rfl rfl
    (by intro s hs; simp at hs; rcases hs with h | h <;> subst h <;> rfl)

/-! ## Finalize and abort -/

theorem detach_stash_quiet :
    ∀ l : List cache_rule_stash,
      (detach_stash l).filter Call.is_closing = [] ∧
      (detach_stash l).any Call.is_failed_update = false := by
  intro l
  induction l with
  | nil => simp [detach_stash]
  | cons s l ih =>
    simp [detach_stash, Call.is_closing, Call.is_finish, Call.is_abort, Call.is_failed_update,
      ih.1]
    simpa using ih.2

theorem forward_data_write_fail_state (upd : update_outcome) (len : Nat) (ctx : cache_ctx)
    (e : cache_entry) (hs : ctx.state = CACHE_CTX_STATE_CREATE) (he : ctx.entry = some e)
    (hok : upd.ok = false) :
    ∃ ret, cache_filter_http_forward_data upd true len ctx = some ret ∧
      ret.calls = [Call.update len false] ∧ ret.ctx.state = CACHE_CTX_STATE_PASS :=
  ⟨_, forward_data_write_fail upd len ctx e hs he hok, rfl, rfl⟩

theorem run_body_capture (e : cache_entry) :
    ∀ (body : List Site) (c : cache_ctx) (lg : List Call), (∀ s ∈ body, s.is_body = true) →
      c.state = CACHE_CTX_STATE_CREATE → c.entry = some e →
      ∃ w1 ext, run body ⟨c, lg⟩ = some w1 ∧ w1.log = lg ++ ext ∧ Capture e w1.ctx ext := by
  intro body
  induction body with
  | nil =>
    intro c lg _ hs he
    exact ⟨⟨c, lg⟩, [], rfl, by simp, Or.inl ⟨hs, he, rfl, rfl⟩⟩
  | cons s body ih =>
    intro c lg hb hs he
    have hb' : ∀ t ∈ body, t.is_body = true := fun t ht => hb t (List.mem_cons_of_mem _ ht)
    have hsb := hb s (List.mem_cons_self _ _)
    cases s with
    | http_headers env rules txn isResp => simp [Site.is_body] at hsb
    | http_forward_data upd isResp len =>
      cases isResp with
      | false =>
        have hst : step ⟨c, lg⟩ (Site.http_forward_data upd false len) = some ⟨c, lg⟩ := by
          simp [step, forward_data_inert upd false len c (Or.inr rfl)]
        simp only [run, hst]
        exact ih c lg hb' hs he
      | true =>
        cases hok : upd.ok with
        | true =>
          have hst : step ⟨c, lg⟩ (Site.http_forward_data upd true len)
              = some ⟨{ c with element := upd.element }, lg ++ [Call.update len true]⟩ := by
            simp [step, forward_data_write_ok upd len c hs hok]
          obtain ⟨w1, ext, hrun, hlog, hcap⟩ :=
            ih { c with element := upd.element } (lg ++ [Call.update len true]) hb' hs he
          refine ⟨w1, Call.update len true :: ext, ?_, ?_, ?_⟩
          · simp only [run, hst]; exact hrun
          · rw [hlog]; simp
          · rcases hcap with ⟨h1, h2, h3, h4⟩ | ⟨h1, h3, h4⟩ | ⟨h1, h3, h4⟩
            · refine Or.inl ⟨h1, h2, ?_, ?_⟩
              · simpa [Call.is_failed_update] using h3
              · simpa [Call.is_closing, Call.is_finish, Call.is_abort] using h4
            · refine Or.inr (Or.inl ⟨h1, ?_, ?_⟩)
              · simp [h3]
              · simpa [Call.is_closing, Call.is_finish, Call.is_abort] using h4
            · refine Or.inr (Or.inr ⟨h1, ?_, ?_⟩)
              · simpa [Call.is_failed_update] using h3
              · simpa [Call.is_closing, Call.is_finish, Call.is_abort] using h4
        | false =>
          obtain ⟨ret, hret, hcalls, hstate⟩ := forward_data_write_fail_state upd len c e hs he hok
          have hst : step ⟨c, lg⟩ (Site.http_forward_data upd true len)
              = some ⟨ret.ctx, lg ++ [Call.update len false]⟩ := by
            simp [step, hret, hcalls]
          refine ⟨⟨ret.ctx, lg ++ [Call.update len false]⟩, [Call.update len false], ?_, rfl, ?_⟩
          · simp only [run, hst]
            exact run_body_inert body _ hb' (by simp [hstate])
          · exact Or.inr (Or.inl ⟨by simp [hstate], by simp [Call.is_failed_update],
              by simp [Call.is_closing, Call.is_finish, Call.is_abort]⟩)
    | http_end isResp =>
      cases isResp with
      | false =>
        have hst : step ⟨c, lg⟩ (Site.http_end false) = some ⟨c, lg⟩ := by
          simp [step, http_end_inert false c (Or.inr rfl)]
        simp only [run, hst]
        exact ih c lg hb' hs he
      | true =>
        have hst : step ⟨c, lg⟩ (Site.http_end true)
            = some ⟨cache_finish c, lg ++ [Call.finish (some e)]⟩ := by
          simp [step, cache_filter_http_end, hs, he]
        refine ⟨⟨cache_finish c, lg ++ [Call.finish (some e)]⟩, [Call.finish (some e)],
          ?_, rfl, ?_⟩
        · simp only [run, hst]
          exact run_body_inert body _ hb' (by simp [cache_finish])
        · exact Or.inr (Or.inr ⟨by simp [cache_finish], by simp [Call.is_failed_update],
            by simp [Call.is_closing, Call.is_finish, Call.is_abort]⟩)

/-! ## Reachable contexts -/

theorem inv_init : Inv ctx_init := by
  constructor <;> simp [ctx_init]

theorem request_rules_cases (env : Env) :
    ∀ (rules : List cache_rule) (ctx : cache_ctx),
      ctx.state = CACHE_CTX_STATE_INIT → ctx.data = none →
      ((request_rules env rules ctx).2.1.state = CACHE_CTX_STATE_INIT ∧
        (request_rules env rules ctx).2.1.data = none) ∨
      ((request_rules env rules ctx).1 = LoopExit.fell ∧
        (request_rules env rules ctx).2.1.state = CACHE_CTX_STATE_HIT ∧
        (request_rules env rules ctx).2.1.data.isSome = true) ∨
      ((request_rules env rules ctx).2.1.state = CACHE_CTX_STATE_PASS ∧
        (request_rules env rules ctx).2.1.rule.isSome = true ∧
        (request_rules env rules ctx).2.1.data = none) := by
  intro rules
  induction rules with
  | nil => intro ctx hs hd; left; simp [request_rules, hs, hd]
  | cons r rest ih =>
    intro ctx hs hdat
    by_cases hd : r.state = CACHE_RULE_DISABLED
    · rw [request_rules_disabled env r rest ctx hd]; exact ih ctx hs hdat
    · cases hk : env.cache_build_key r.key with
      | none => left; simp [request_rules, hd, hk, hs, hdat]
      | some k =>
        cases ha : env.pool_alloc_stash ctx.stash.length with
        | false => left; simp [request_rules, hd, hk, cache_stash_rule, ha, hs, hdat]
        | true =>
          cases hx : env.cache_exists k (env.cache_hash_key k) with
          | some dat =>
            rw [request_rules_hit env r rest ctx k dat hd hk ha hx]
            right; left; exact ⟨rfl, rfl, rfl⟩
          | none =>
            cases hp : env.cache_test_rule r false with
            | true =>
              rw [request_rules_pass env r rest ctx k hd hk ha hx hp]
              right; right; exact ⟨rfl, rfl, rfl⟩
            | false =>
              rw [request_rules_next env r rest ctx k hd hk ha hx hp]
              exact ih _ hs rfl

theorem http_headers_request_ctx (env : Env) (rules : List cache_rule) (txn : http_txn)
    (ctx : cache_ctx) (hm : txn.meth ≠ HTTP_METH_OTHER) (hs : ctx.state = CACHE_CTX_STATE_INIT) :
    ∃ ret, cache_filter_http_headers env rules txn false ctx = some ret ∧ ret.ret = 1 ∧
      ret.ctx = (request_rules env rules ctx).2.1 := by
  cases he : (request_rules env rules ctx).1 with
  | returned =>
    exact ⟨⟨1, (request_rules env rules ctx).2.1,
      Call.housekeeping :: (request_rules env rules ctx).2.2⟩,
      by simp [cache_filter_http_headers, hm, hs, he], rfl, rfl⟩
  | fell =>
    rw [http_headers_request_fell env rules txn ctx hm hs he]
    exact ⟨_, rfl, rfl, rfl⟩

theorem http_headers_request_settled (env : Env) (rules : List cache_rule) (txn : http_txn)
    (ctx : cache_ctx) (hm : txn.meth ≠ HTTP_METH_OTHER) (hs : ctx.state ≠ CACHE_CTX_STATE_INIT) :
    ∃ ret, cache_filter_http_headers env rules txn false ctx = some ret ∧ ret.ret = 1 ∧
      ret.ctx = ctx := by
  by_cases hh : ctx.state = CACHE_CTX_STATE_HIT
  · exact ⟨⟨1, ctx, [Call.housekeeping, Call.hit ctx.data]⟩,
      by simp [cache_filter_http_headers, hm, hh], rfl, rfl⟩
  · exact ⟨⟨1, ctx, [Call.housekeeping]⟩, by simp [cache_filter_http_headers, hm, hs, hh],
      rfl, rfl⟩

theorem http_headers_request_other (env : Env) (rules : List cache_rule) (txn : http_txn)
    (ctx : cache_ctx) (hm : txn.meth = HTTP_METH_OTHER) :
    cache_filter_http_headers env rules txn false ctx
      = some ⟨1, { ctx with state := CACHE_CTX_STATE_BYPASS }, [Call.housekeeping]⟩ := by
  simp [cache_filter_http_headers, hm]

theorem http_headers_request_inv (env : Env) (rules : List cache_rule) (txn : http_txn)
    (ctx : cache_ctx) (hi : Inv ctx) :
    ∃ ret, cache_filter_http_headers env rules txn false ctx = some ret ∧ ret.ret = 1 ∧
      Inv ret.ctx := by
  by_cases hm : txn.meth = HTTP_METH_OTHER
  · refine ⟨_, http_headers_request_other env rules txn ctx hm, rfl, ?_⟩
    constructor
    · exact hi.not_both
    · intro h; cases h
    · intro h; cases h
    · intro h; cases h
    · intro h; cases h
  · by_cases hs : ctx.state = CACHE_CTX_STATE_INIT
    · obtain ⟨ret, hret, h1, hctx⟩ := http_headers_request_ctx env rules txn ctx hm hs
      refine ⟨ret, hret, h1, ?_⟩
      have hen : ret.ctx.entry = none := by
        rw [hctx, (request_rules_frame env rules ctx).1]; exact (hi.init hs).1
      rcases request_rules_cases env rules ctx hs (hi.init hs).2 with
        ⟨h2, h3⟩ | ⟨_, h2, h3⟩ | ⟨h2, h3, h4⟩
      all_goals rw [← hctx] at h2 h3
      · constructor
        · exact Or.inl hen
        · intro _; exact ⟨hen, h3⟩
        · intro h; rw [h2] at h; cases h
        · intro h; rw [h2] at h; cases h
        · intro h; rw [h2] at h; cases h
      · constructor
        · exact Or.inl hen
        · intro h; rw [h2] at h; cases h
        · intro h; rw [h2] at h; cases h
        · intro h; rw [h2] at h; cases h
        · intro _; exact ⟨h3, hen⟩
      · rw [← hctx] at h4
        constructor
        · exact Or.inl hen
        · intro h; rw [h2] at h; cases h
        · intro _; exact ⟨h3, h4⟩
        · intro h; rw [h2] at h; cases h
        · intro h; rw [h2] at h; cases h
    · obtain ⟨ret, hret, h1, hctx⟩ := http_headers_request_settled env rules txn ctx hm hs
      exact ⟨ret, hret, h1, by rw [hctx]; exact hi⟩

theorem response_rules_cases (env : Env) :
    ∀ (rules : List cache_rule) (ctx : cache_ctx),
      (response_rules env rules ctx).1 = ctx ∨
      ∃ r, r ∈ rules ∧ (response_rules env rules ctx).1
        = { ctx with state := CACHE_CTX_STATE_PASS, rule := some r } := by
  intro rules
  induction rules with
  | nil => intro ctx; left; rfl
  | cons r rest ih =>
    intro ctx
    cases hp : env.cache_test_rule r true with
    | true => right; exact ⟨r, List.mem_cons_self _ _, by simp [response_rules, hp]⟩
    | false =>
      rcases ih ctx with h | ⟨q, hq, h⟩
      · left; simp [response_rules, hp, h]
      · right; exact ⟨q, List.mem_cons_of_mem _ hq, by simp [response_rules, hp, h]⟩

theorem response_pass_inv (env : Env) (txn : http_txn) (ctx : cache_ctx) (calls : List Call)
    (hi : Inv ctx) (hs : ctx.state = CACHE_CTX_STATE_PASS) :
    ∃ ret, response_pass env txn ctx calls = some ret ∧ ret.ret = 1 ∧ Inv ret.ctx ∧
      ret.ctx.rule = ctx.rule ∧
      (ret.calls = calls ∨ ∃ k h, ret.calls = calls ++ [Call.create k h]) := by
  obtain ⟨hr, hd⟩ := hi.pass hs
  cases hrule : ctx.rule with
  | none => rw [hrule] at hr; cases hr
  | some rule =>
    by_cases hv : code_valid rule.code txn.status = false
    · exact ⟨⟨1, ctx, calls⟩, by simp [response_pass, hrule, hv], rfl, hi, hrule, Or.inl rfl⟩
    · cases hsc : stash_scan ctx ctx.stash with
      | none =>
        exact ⟨⟨1, ctx, calls⟩, by simp [response_pass, hrule, hv, hsc], rfl, hi, hrule,
          Or.inl rfl⟩
      | some kh =>
        obtain ⟨k, h⟩ := kh
        refine ⟨⟨1, cache_create env ctx k h, calls ++ [Call.create k h]⟩,
          by simp [response_pass, hrule, hv, hsc], rfl, ?_, ?_, Or.inr ⟨k, h, rfl⟩⟩
        · cases hc : env.store_create k h with
          | none => simp only [cache_create, hc]; exact hi
          | some e =>
            simp only [cache_create, hc]
            constructor
            · exact Or.inr hd
            · intro h; cases h
            · intro h; cases h
            · intro _; exact ⟨by simp [hrule], rfl, hd⟩
            · intro h; cases h
        · cases hc : env.store_create k h with
          | none => simp only [cache_create, hc]; exact hrule
          | some e => simp only [cache_create, hc]; exact hrule

theorem http_headers_response_inv (env : Env) (rules : List cache_rule) (txn : http_txn)
    (ctx : cache_ctx) (hi : Inv ctx) :
    ∃ ret, cache_filter_http_headers env rules txn true ctx = some ret ∧ ret.ret = 1 ∧
      Inv ret.ctx := by
  by_cases hs : ctx.state = CACHE_CTX_STATE_INIT
  · rcases response_rules_cases env rules ctx with h | ⟨r, _, h⟩
    · exact ⟨⟨1, ctx, (response_rules env rules ctx).2⟩,
        by simp [cache_filter_http_headers, hs, h], rfl, hi⟩
    · have hi2 : Inv { ctx with state := CACHE_CTX_STATE_PASS, rule := some r } := by
        constructor
        · exact hi.not_both
        · intro h; cases h
        · intro _; exact ⟨rfl, (hi.init hs).2⟩
        · intro h; cases h
        · intro h; cases h
      obtain ⟨ret, hret, h1, h2, _, _⟩ :=
        response_pass_inv env txn _ (response_rules env rules ctx).2 hi2 rfl
      exact ⟨ret, by simp [cache_filter_http_headers, hs, h, hret], h1, h2⟩
  · by_cases hp : ctx.state = CACHE_CTX_STATE_PASS
    · obtain ⟨ret, hret, h1, h2, _, _⟩ := response_pass_inv env txn ctx [] hi hp
      exact ⟨ret, by rw [http_headers_response_pass env rules txn ctx hp]; exact hret, h1, h2⟩
    · exact ⟨_, http_headers_response_other env rules txn ctx hs hp, rfl, hi⟩

theorem forward_data_inv (upd : update_outcome) (isResp : Bool) (len : Nat) (ctx : cache_ctx)
    (hi : Inv ctx) :
    ∃ ret, cache_filter_http_forward_data upd isResp len ctx = some ret ∧
      ret.ret = to_int len ∧ Inv ret.ctx := by
  by_cases hc : ctx.state = CACHE_CTX_STATE_CREATE ∧ isResp = true
  · obtain ⟨hs, hr⟩ := hc
    subst hr
    obtain ⟨h1, h2, h3⟩ := hi.create hs
    cases hok : upd.ok with
    | true =>
      refine ⟨_, forward_data_write_ok upd len ctx hs hok, rfl, ?_⟩
      constructor
      · exact Or.inr h3
      · intro h; rw [hs] at h; cases h
      · intro h; rw [hs] at h; cases h
      · intro _; exact ⟨h1, h2, h3⟩
      · intro h; rw [hs] at h; cases h
    | false =>
      cases he : ctx.entry with
      | none => rw [he] at h2; cases h2
      | some e =>
        refine ⟨_, forward_data_write_fail upd len ctx e hs he hok, rfl, ?_⟩
        constructor
        · exact Or.inr h3
        · intro h; cases h
        · intro _; exact ⟨h1, h3⟩
        · intro h; cases h
        · intro h; cases h
  · refine ⟨_, forward_data_inert upd isResp len ctx ?_, rfl, hi⟩
    by_cases hs : ctx.state = CACHE_CTX_STATE_CREATE
    · right
      cases isResp with
      | false => rfl
      | true => exact absurd ⟨hs, rfl⟩ hc
    · exact Or.inl hs

theorem http_end_inv (isResp : Bool) (ctx : cache_ctx) (hi : Inv ctx) :
    (cache_filter_http_end isResp ctx).ret = 1 ∧ Inv (cache_filter_http_end isResp ctx).ctx := by
  by_cases hc : ctx.state = CACHE_CTX_STATE_CREATE ∧ isResp = true
  · obtain ⟨h1, h2, h3⟩ := hi.create hc.1
    have hv : cache_filter_http_end isResp ctx
        = ⟨1, { ctx with state := CACHE_CTX_STATE_DONE }, [Call.finish ctx.entry]⟩ := by
      simp [cache_filter_http_end, hc, cache_finish]
    rw [hv]
    refine ⟨rfl, ?_⟩
    constructor
    · exact Or.inr h3
    · intro h; cases h
    · intro h; cases h
    · intro h; cases h
    · intro h; cases h
  · have hv : cache_filter_http_end isResp ctx = ⟨1, ctx, []⟩ := by
      simp only [cache_filter_http_end, hc, if_false]
    rw [hv]
    exact ⟨rfl, hi⟩

theorem step_inv (w : World) (s : Site) (hi : Inv w.ctx) :
    ∃ w1, step w s = some w1 ∧ Inv w1.ctx := by
  cases s with
  | http_headers env rules txn isResp =>
    cases isResp with
    | false =>
      obtain ⟨ret, hret, _, h⟩ := http_headers_request_inv env rules txn w.ctx hi
      exact ⟨⟨ret.ctx, w.log ++ ret.calls⟩, by simp [step, hret], h⟩
    | true =>
      obtain ⟨ret, hret, _, h⟩ := http_headers_response_inv env rules txn w.ctx hi
      exact ⟨⟨ret.ctx, w.log ++ ret.calls⟩, by simp [step, hret], h⟩
  | http_forward_data upd isResp len =>
    obtain ⟨ret, hret, _, h⟩ := forward_data_inv upd isResp len w.ctx hi
    exact ⟨⟨ret.ctx, w.log ++ ret.calls⟩, by simp [step, hret], h⟩
  | http_end isResp =>
    exact ⟨_, rfl, (http_end_inv isResp w.ctx hi).2⟩

theorem run_inv :
    ∀ (sites : List Site) (w : World), Inv w.ctx → ∃ w1, run sites w = some w1 ∧ Inv w1.ctx := by
  intro sites
  induction sites with
  | nil => intro w hi; exact ⟨w, rfl, hi⟩
  | cons s sites ih =>
    intro w hi
    obtain ⟨w1, h1, hi1⟩ := step_inv w s hi
    obtain ⟨w2, h2, hi2⟩ := ih w1 hi1
    exact ⟨w2, by simp only [run, h1]; exact h2, hi2⟩

/-! ## A capture that succeeds -/

theorem run_body_sites :
    ∀ (chunks : List (update_outcome × Nat)) (c : cache_ctx) (lg : List Call),
      c.state = CACHE_CTX_STATE_CREATE → (∀ x ∈ chunks, x.1.ok = true) →
      ∃ el, run (body_sites chunks) ⟨c, lg⟩
        = some ⟨{ c with element := el, state := CACHE_CTX_STATE_DONE },
            lg ++ chunks.map (fun x => Call.update x.2 true) ++ [Call.finish c.entry]⟩ := by
  intro chunks
  induction chunks with
  | nil =>
    intro c lg hs _
    exact ⟨c.element, by simp [body_sites, run, step, cache_filter_http_end, hs, cache_finish]⟩
  | cons x chunks ih =>
    intro c lg hs hok
    have hx : x.1.ok = true := hok x (List.mem_cons_self _ _)
    have hst : step ⟨c, lg⟩ (Site.http_forward_data x.1 true x.2)
        = some ⟨{ c with element := x.1.element }, lg ++ [Call.update x.2 true]⟩ := by
      simp [step, forward_data_write_ok x.1 x.2 c hs hx]
    obtain ⟨el, hrun⟩ := ih { c with element := x.1.element } (lg ++ [Call.update x.2 true]) hs
      (fun y hy => hok y (List.mem_cons_of_mem _ hy))
    refine ⟨el, ?_⟩
    have hb : body_sites (x :: chunks)
        = Site.http_forward_data x.1 true x.2 :: body_sites chunks := by
      simp [body_sites]
    rw [hb]
    simp only [run, hst]
    rw [hrun]
    simp

/-- C11.  In state CREATE, for every list of response body chunks whose writes
all succeed, feeding the chunks and then end-of-message makes exactly one write
call per chunk, in arrival order and with the chunk's byte length, followed by
exactly one finalize call on the live entry, and nothing else: no abort before
teardown, and teardown adds neither an abort nor a finalize. -/
theorem C11_chunks_written_then_finalized (ctx : cache_ctx)
    (chunks : List (update_outcome × Nat))
    (hs : ctx.state = CACHE_CTX_STATE_CREATE) (hok : ∀ x ∈ chunks, x.1.ok = true) :
    ∃ w, run (body_sites chunks) ⟨ctx, []⟩ = some w ∧
      w.log = chunks.map (fun x => Call.update x.2 true) ++ [Call.finish ctx.entry] ∧
      (cache_filter_detach ⟨some w.ctx⟩).2.filter Call.is_closing = [] := by
  obtain ⟨el, hrun⟩ := run_body_sites chunks ctx [] hs hok
  refine ⟨_, hrun, by simp, ?_⟩
  have hq := detach_stash_quiet ctx.stash
  simp [cache_filter_detach, hq.1, Call.is_closing, Call.is_finish, Call.is_abort]

/-- Witness for C11: chunks of length 100 and 50. -/
theorem C11_chunks_written_then_finalized_witness :
    ∃ w, run (body_sites [(upd_ok, 100), (upd_ok, 50)]) ⟨ctx_create, []⟩ = some w ∧
      w.log = [Call.update 100 true, Call.update 50 true, Call.finish ctx_create.entry] ∧
      (cache_filter_detach ⟨some w.ctx⟩).2.filter Call.is_closing = [] :=
  C11_chunks_written_then_finalized ctx_create [(upd_ok, 100), (upd_ok, 50)] rfl
    (by intro x hx; simp at hx; rcases hx with h | h <;> subst h <;> rfl)

/-! ## After a hit -/

theorem step_later_hit (w : World) (s : Site) (hl : s.is_later = true)
    (hs : w.ctx.state = CACHE_CTX_STATE_HIT) : step w s = some w := by
  cases s with
  | http_headers env rules txn isResp =>
    have hr : isResp = true := hl
    subst hr
    simp [step, http_headers_response_other env rules txn w.ctx (by rw [hs]; decide)
      (by rw [hs]; decide)]
  | http_forward_data upd isResp len =>
    exact step_body_inert w _ rfl (by rw [hs]; decide)
  | http_end isResp =>
    exact step_body_inert w _ rfl (by rw [hs]; decide)

theorem run_later_hit :
    ∀ (later : List Site) (w : World), (∀ s ∈ later, s.is_later = true) →
      w.ctx.state = CACHE_CTX_STATE_HIT → run later w = some w := by
  intro later
  induction later with
  | nil => intro w _ _; rfl
  | cons s later ih =>
    intro w hl hs
    simp only [run, step_later_hit w s (hl s (List.mem_cons_self _ _)) hs]
    exact ih w (fun t ht => hl t (List.mem_cons_of_mem _ ht)) hs

theorem detach_stash_no_capture :
    ∀ l : List cache_rule_stash, (detach_stash l).any Call.is_capture = false := by
  intro l
  induction l with
  | nil => rfl
  | cons s l ih => simpa [detach_stash, Call.is_capture] using ih

/-- C12.  When request headers on a fresh context end in state HIT, the handler
has called the serve-from-cache operation with the cached data `ctx->data`
(non-null) as its last call; from then on response headers, body chunks and
end-of-message make no call at all and leave the context, state HIT included,
as it is, and teardown makes no create, write, finalize or abort call. -/
theorem C12_hit_is_served_and_never_captured (env : Env) (rules : List cache_rule)
    (txn : http_txn) (ret : Ret) (later : List Site)
    (hreq : cache_filter_http_headers env rules txn false ctx_init = some ret)
    (hhit : ret.ctx.state = CACHE_CTX_STATE_HIT)
    (hl : ∀ s ∈ later, s.is_later = true) :
    ret.ctx.data.isSome = true ∧
    ret.calls.getLast? = some (Call.hit ret.ctx.data) ∧
    run later ⟨ret.ctx, ret.calls⟩ = some ⟨ret.ctx, ret.calls⟩ ∧
    (cache_filter_detach ⟨some ret.ctx⟩).2.any Call.is_capture = false := by
  have hm : txn.meth ≠ HTTP_METH_OTHER := by
    intro hm
    rw [http_headers_request_other env rules txn ctx_init hm] at hreq
    cases hreq
    cases hhit
  obtain ⟨ret2, hret2, _, hctx⟩ := http_headers_request_ctx env rules txn ctx_init hm rfl
  have heq : ret2 = ret := by rw [hret2] at hreq; exact Option.some.inj hreq
  subst heq
  rw [hctx] at hhit
  rcases request_rules_cases env rules ctx_init rfl rfl with
    ⟨h2, _⟩ | ⟨hf, _, h3⟩ | ⟨h2, _, _⟩
  · rw [h2] at hhit; cases hhit
  · have hv := http_headers_request_fell env rules txn ctx_init hm rfl hf
    rw [hret2] at hv
    have hv2 := Option.some.inj hv
    refine ⟨by rw [hctx]; exact h3, ?_, ?_, ?_⟩
    · rw [hv2]
      simp only [hhit, if_true]
      show ((Call.housekeeping :: (request_rules env rules ctx_init).2.2) ++
        [Call.hit (request_rules env rules ctx_init).2.1.data]).getLast? = _
      exact List.getLast?_concat _
    · exact run_later_hit later _ hl (by rw [hctx]; exact hhit)
    · have hq := detach_stash_no_capture ret2.ctx.stash
      have hs : ret2.ctx.state = CACHE_CTX_STATE_HIT := by rw [hctx]; exact hhit
      simp [cache_filter_detach, hs, hq, Call.is_capture]
  · rw [h2] at hhit; cases hhit

/-- Witness for C12: rule `b` is in the store; response headers, a chunk and
end-of-message follow. -/
theorem C12_hit_is_served_and_never_captured_witness :
    ret_hit_b.ctx.data.isSome = true ∧
    ret_hit_b.calls.getLast? = some (Call.hit ret_hit_b.ctx.data) ∧
    run [Site.http_headers env_ab [rule_b, rule_a] txn_get true,
         Site.http_forward_data upd_ok true 100, Site.http_end true]
        ⟨ret_hit_b.ctx, ret_hit_b.calls⟩
      = some ⟨ret_hit_b.ctx, ret_hit_b.calls⟩ ∧
    (cache_filter_detach ⟨some ret_hit_b.ctx⟩).2.any Call.is_capture = false :=
  C12_hit_is_served_and_never_captured env_ab [rule_b, rule_a] txn_get ret_hit_b
    [Site.http_headers env_ab [rule_b, rule_a] txn_get true,
     Site.http_forward_data upd_ok true 100, Site.http_end true]
    (by decide) rfl
    (by intro s hs; simp at hs; rcases hs with h | h | h <;> subst h <;> rfl)

/-! ## A request-time decision stands -/

/-- C15.  In state PASS with a governing rule, response headers evaluate no
admission predicate: the outcome is the same for every rule list, the only call
the handler can make is one create call, and the governing rule afterwards is
the one set at request time. -/
theorem C15_request_decision_stands (env : Env) (rules : List cache_rule) (txn : http_txn)
    (ctx : cache_ctx) (rule : cache_rule)
    (hs : ctx.state = CACHE_CTX_STATE_PASS) (hr : ctx.rule = some rule) :
    ∃ ret, cache_filter_http_headers env rules txn true ctx = some ret ∧
      ret.ctx.rule = some rule ∧
      ret.calls.any Call.is_test_rule = false ∧
      (ret.calls = [] ∨ ∃ k h, ret.calls = [Call.create k h]) ∧
      cache_filter_http_headers env [] txn true ctx = some ret := by
  have hval : ∀ rs : List cache_rule,
      cache_filter_http_headers env rs txn true ctx = response_pass env txn ctx [] :=
    fun rs => http_headers_response_pass env rs txn ctx hs
  by_cases hv : code_valid rule.code txn.status = false
  · refine ⟨⟨1, ctx, []⟩, ?_, hr, rfl, Or.inl rfl, ?_⟩
    · rw [hval rules]; simp [response_pass, hr, hv]
    · rw [hval []]; simp [response_pass, hr, hv]
  · cases hsc : stash_scan ctx ctx.stash with
    | none =>
      refine ⟨⟨1, ctx, []⟩, ?_, hr, rfl, Or.inl rfl, ?_⟩
      · rw [hval rules]; simp [response_pass, hr, hv, hsc]
      · rw [hval []]; simp [response_pass, hr, hv, hsc]
    | some kh =>
      obtain ⟨k, h⟩ := kh
      refine ⟨⟨1, cache_create env ctx k h, [Call.create k h]⟩, ?_, ?_, rfl,
        Or.inr ⟨k, h, rfl⟩, ?_⟩
      · rw [hval rules]; simp [response_pass, hr, hv, hsc]
      · cases hc : env.store_create k h with
        | none => simp only [cache_create, hc]; exact hr
        | some e => simp only [cache_create, hc]; exact hr
      · rw [hval []]; simp [response_pass, hr, hv, hsc]

/-- Witness for C15: state PASS governed by rule `a` at the head of the stash,
status 200, while the response-side predicate would pass for rule `b`. -/
theorem C15_request_decision_stands_witness :
    ∃ ret, cache_filter_http_headers env_resp [rule_b, rule_a] txn_get true
        { ctx_create with state := CACHE_CTX_STATE_PASS, entry := none } = some ret ∧
      ret.ctx.rule = some rule_a ∧
      ret.calls.any Call.is_test_rule = false ∧
      (ret.calls = [] ∨ ∃ k h, ret.calls = [Call.create k h]) ∧
      cache_filter_http_headers env_resp [] txn_get true
        { ctx_create with state := CACHE_CTX_STATE_PASS, entry := none } = some ret :=
  C15_request_decision_stands env_resp [rule_b, rule_a] txn_get
    { ctx_create with state := CACHE_CTX_STATE_PASS, entry := none } rule_a rfl rfl

/-! ## Attach and detach -/

/-- C17.  `cache_filter_attach` returns 0, allocates nothing and leaves the
filter as it is when the global cache status or the filter's status is not ON.
With both ON and no context yet: if the allocation fails it returns 0 and the
filter still has no context; if it succeeds it returns 1 and the new context
has state INIT, no governing rule, an empty stash, no cached data, no live
entry and no position marker.  With both ON and a context already present it
returns 1 without allocating and leaves that context unchanged. -/
theorem C17_attach (global_status conf_status : cache_status) (alloc_ok : Bool)
    (f : filter) (ctx : cache_ctx) :
    ((global_status ≠ CACHE_STATUS_ON ∨ conf_status ≠ CACHE_STATUS_ON) →
      cache_filter_attach global_status conf_status alloc_ok f = (0, f, [])) ∧
    cache_filter_attach CACHE_STATUS_ON CACHE_STATUS_ON false ⟨none⟩
      = (0, ⟨none⟩, [Call.pool_alloc_ctx]) ∧
    cache_filter_attach CACHE_STATUS_ON CACHE_STATUS_ON true ⟨none⟩
      = (1, ⟨some ctx_init⟩,
          [Call.pool_alloc_ctx, Call.register_data_filter false,
            Call.register_data_filter true]) ∧
    ctx_init = ⟨CACHE_CTX_STATE_INIT, none, [], none, none, none⟩ ∧
    cache_filter_attach CACHE_STATUS_ON CACHE_STATUS_ON alloc_ok ⟨some ctx⟩
      = (1, ⟨some ctx⟩, [Call.register_data_filter false, Call.register_data_filter true]) := by
  refine ⟨?_, rfl, rfl, rfl, rfl⟩
  intro h
  simp [cache_filter_attach, h]

/-- Witness for C17: the global status is OFF. -/
theorem C17_attach_witness :
    cache_filter_attach CACHE_STATUS_OFF CACHE_STATUS_ON true ⟨none⟩ = (0, ⟨none⟩, []) :=
  (C17_attach CACHE_STATUS_OFF CACHE_STATUS_ON true ⟨none⟩ ctx_init).1 (Or.inl (by decide))

theorem detach_stash_nodes :
    ∀ l : List cache_rule_stash,
      (detach_stash l).filterMap Call.freed_node = l ∧
      (detach_stash l).filterMap Call.freed_key = l.map (fun s => s.key) ∧
      (detach_stash l).filter Call.is_store = [] := by
  intro l
  induction l with
  | nil => simp [detach_stash]
  | cons s l ih =>
    simp [detach_stash, Call.freed_node, Call.freed_key, Call.is_store, Call.is_capture,
      ih.1, ih.2.1, ih.2.2]

/-- C18.  `cache_filter_detach` on a filter with a context gives every stash
node back to the pool, once each and in stash order, after freeing its key, so
that the stash is empty when the context is released.  If a capture is still
open (state CREATE) the only store operation it invokes is one abort, on the
live entry; otherwise it invokes no store operation at all. -/
theorem C18_detach_releases_and_aborts (ctx : cache_ctx) :
    (cache_filter_detach ⟨some ctx⟩).1 = some { ctx with stash := [] } ∧
    (cache_filter_detach ⟨some ctx⟩).2.filterMap Call.freed_node = ctx.stash ∧
    (cache_filter_detach ⟨some ctx⟩).2.filterMap Call.freed_key
      = ctx.stash.map (fun s => s.key) ∧
    (ctx.state = CACHE_CTX_STATE_CREATE →
      (cache_filter_detach ⟨some ctx⟩).2.filter Call.is_store = [Call.abort ctx.entry]) ∧
    (ctx.state ≠ CACHE_CTX_STATE_CREATE →
      (cache_filter_detach ⟨some ctx⟩).2.filter Call.is_store = []) := by
  have hq := detach_stash_nodes ctx.stash
  refine ⟨rfl, ?_, ?_, ?_, ?_⟩
  · by_cases h : ctx.state = CACHE_CTX_STATE_CREATE
    · simp [cache_filter_detach, h, hq.1, Call.freed_node]
    · simp [cache_filter_detach, h, hq.1, Call.freed_node]
  · by_cases h : ctx.state = CACHE_CTX_STATE_CREATE
    · simp [cache_filter_detach, h, hq.2.1, Call.freed_key]
    · simp [cache_filter_detach, h, hq.2.1, Call.freed_key]
  · intro h
    simp [cache_filter_detach, h, hq.2.2, Call.is_store, Call.is_capture]
  · intro h
    simp [cache_filter_detach, h, hq.2.2, Call.is_store, Call.is_capture]

/-- Witness for C18: teardown in state CREATE, and in state PASS. -/
theorem C18_detach_releases_and_aborts_witness :
    (cache_filter_detach ⟨some ctx_create⟩).2.filter Call.is_store
      = [Call.abort ctx_create.entry] ∧
    (cache_filter_detach ⟨some ctx_pass_b⟩).2.filter Call.is_store = [] :=
  ⟨(C18_detach_releases_and_aborts ctx_create).2.2.2.1 rfl,
   (C18_detach_releases_and_aborts ctx_pass_b).2.2.2.2 (by decide)⟩

/-! ## Properties of every reachable context -/

/-- C13.  Whatever call sites follow attach, with whatever collaborator
outcomes, the run never faults and in the context it reaches the cached data
`ctx->data` and the live entry `ctx->entry` are not both set; in state HIT the
cached data is set and the live entry is null; in state CREATE the live entry
is set and the cached data is null. -/
theorem C13_snapshot_and_entry_exclusive (sites : List Site) :
    ∃ w, run sites ⟨ctx_init, []⟩ = some w ∧
      ¬ (w.ctx.data.isSome = true ∧ w.ctx.entry.isSome = true) ∧
      (w.ctx.state = CACHE_CTX_STATE_HIT →
        w.ctx.data.isSome = true ∧ w.ctx.entry = none) ∧
      (w.ctx.state = CACHE_CTX_STATE_CREATE →
        w.ctx.entry.isSome = true ∧ w.ctx.data = none) := by
  obtain ⟨w, hrun, hi⟩ := run_inv sites ⟨ctx_init, []⟩ inv_init
  refine ⟨w, hrun, ?_, hi.hit, fun h => ⟨(hi.create h).2.1, (hi.create h).2.2⟩⟩
  rintro ⟨h1, h2⟩
  rcases hi.not_both with h | h
  · rw [h] at h2; cases h2
  · rw [h] at h1; cases h1

/-- C16.  In every context an exchange can reach, whatever the collaborators
report: request headers and response headers return 1, end-of-message returns
1, and a body chunk returns its length `len` converted to the handler's `int`
return type, in every state: that is `len` itself for every length below
`2^31`, never a partial length. -/
theorem C16_call_sites_continue (sites : List Site) :
    ∃ w, run sites ⟨ctx_init, []⟩ = some w ∧
      (∀ (env : Env) (rules : List cache_rule) (txn : http_txn) (isResp : Bool),
        ∃ ret, cache_filter_http_headers env rules txn isResp w.ctx = some ret ∧ ret.ret = 1) ∧
      (∀ (upd : update_outcome) (isResp : Bool) (len : Nat),
        ∃ ret, cache_filter_http_forward_data upd isResp len w.ctx = some ret ∧
          ret.ret = to_int len ∧ (len < 2 ^ 31 → ret.ret = (len : Int))) ∧
      (∀ isResp : Bool, (cache_filter_http_end isResp w.ctx).ret = 1) := by
  obtain ⟨w, hrun, hi⟩ := run_inv sites ⟨ctx_init, []⟩ inv_init
  refine ⟨w, hrun, ?_, ?_, ?_⟩
  · intro env rules txn isResp
    cases isResp with
    | false =>
      obtain ⟨ret, h1, h2, _⟩ := http_headers_request_inv env rules txn w.ctx hi
      exact ⟨ret, h1, h2⟩
    | true =>
      obtain ⟨ret, h1, h2, _⟩ := http_headers_response_inv env rules txn w.ctx hi
      exact ⟨ret, h1, h2⟩
  · intro upd isResp len
    obtain ⟨ret, h1, h2, _⟩ := forward_data_inv upd isResp len w.ctx hi
    refine ⟨ret, h1, h2, ?_⟩
    intro hlen
    rw [h2]
    have h32 : len % 2 ^ 32 = len := Nat.mod_eq_of_lt (by omega)
    simp only [to_int, h32, hlen, if_true]
  · intro isResp
    exact (http_end_inv isResp w.ctx hi).1

/-- C20.  Whatever call sites follow attach, with whatever collaborator
outcomes, the run never faults, and in the context it reaches state PASS
implies that the governing rule is set; hence response headers on that context
never dereference a missing rule: they always return. -/
theorem C20_pass_has_governing_rule (sites : List Site) :
    ∃ w, run sites ⟨ctx_init, []⟩ = some w ∧
      (w.ctx.state = CACHE_CTX_STATE_PASS → ∃ rule, w.ctx.rule = some rule) ∧
      (∀ (env : Env) (rules : List cache_rule) (txn : http_txn),
        cache_filter_http_headers env rules txn true w.ctx ≠ none) := by
  obtain ⟨w, hrun, hi⟩ := run_inv sites ⟨ctx_init, []⟩ inv_init
  refine ⟨w, hrun, ?_, ?_⟩
  · intro h
    have := (hi.pass h).1
    cases hr : w.ctx.rule with
    | none => rw [hr] at this; cases this
    | some rule => exact ⟨rule, rfl⟩
  · intro env rules txn hn
    obtain ⟨ret, h1, _, _⟩ := http_headers_response_inv env rules txn w.ctx hi
    rw [h1] at hn
    cases hn

/-! ## The response-side rule pass -/

theorem response_rules_first (env : Env) :
    ∀ (rules : List cache_rule) (ctx : cache_ctx),
      (response_rules env rules ctx).1
        = match rules.find? (fun r => env.cache_test_rule r true) with
          | some r => { ctx with state := CACHE_CTX_STATE_PASS, rule := some r }
          | none => ctx := by
  intro rules
  induction rules with
  | nil => intro ctx; rfl
  | cons r rest ih =>
    intro ctx
    cases hp : env.cache_test_rule r true with
    | true => simp [response_rules, hp]
    | false => simp [response_rules, hp, ih ctx]

/-- C14 (the code at the failing input).  Rules `c` (disabled) and `b`
(enabled), every response-side predicate passing, nothing decided in the
request phase.  The first enabled rule whose response-side predicate passes is
`b`; response headers with status 200 pick the disabled rule `c` instead: the
state is PASS governed by `c`, and no create call is issued although the stash
holds the node of rule `b`. -/
theorem C14_response_pass_takes_disabled_rule :
    rule_c.state = CACHE_RULE_DISABLED ∧
    claimed_response_rule env_resp_all [rule_c, rule_b] = some rule_b ∧
    (run [Site.http_headers env_resp_all [rule_c, rule_b] txn_get false] ⟨ctx_init, []⟩).map
        (fun w => (w.ctx.state, w.ctx.stash.map (fun s => s.rule)))
      = some (CACHE_CTX_STATE_INIT, [rule_b]) ∧
    (run [Site.http_headers env_resp_all [rule_c, rule_b] txn_get false,
          Site.http_headers env_resp_all [rule_c, rule_b] txn_get true] ⟨ctx_init, []⟩).map
        (fun w => (w.ctx.state, w.ctx.rule, w.log.any Call.is_create))
      = some (CACHE_CTX_STATE_PASS, some rule_c, false) := by
  decide

/-! ## Key-build failure -/

theorem http_headers_request_returned (env : Env) (rules : List cache_rule) (txn : http_txn)
    (ctx : cache_ctx) (hm : txn.meth ≠ HTTP_METH_OTHER) (hs : ctx.state = CACHE_CTX_STATE_INIT)
    (hf : (request_rules env rules ctx).1 = LoopExit.returned) :
    cache_filter_http_headers env rules txn false ctx
      = some ⟨1, (request_rules env rules ctx).2.1,
          Call.housekeeping :: (request_rules env rules ctx).2.2⟩ := by
  simp [cache_filter_http_headers, hm, hs, hf]

theorem request_rules_passed_over_state (env : Env) :
    ∀ (pre : List cache_rule) (ctx : cache_ctx), (∀ q ∈ pre, passed_over env q) →
      (∀ n, ctx.stash.length ≤ n → n < ctx.stash.length + (enabled pre).length →
        env.pool_alloc_stash n = true) →
      (request_rules env pre ctx).2.1.state = ctx.state ∧
      stashed_rules (request_rules env pre ctx).2.2 = enabled pre ∧
      (request_rules env pre ctx).2.1.stash.map (fun s => s.rule)
        = ctx.stash.map (fun s => s.rule) ++ enabled pre := by
  intro pre
  induction pre with
  | nil => intro ctx _ _; simp [request_rules, enabled, stashed_rules]
  | cons r pre ih =>
    intro ctx hpre ha
    have hpre' : ∀ q ∈ pre, passed_over env q := fun q hq => hpre q (List.mem_cons_of_mem _ hq)
    by_cases hd : r.state = CACHE_RULE_DISABLED
    · have he : enabled (r :: pre) = enabled pre := by simp [enabled, hd]
      rw [request_rules_disabled env r pre ctx hd, he]
      rw [he] at ha
      exact ih ctx hpre' ha
    · have he : enabled (r :: pre) = r :: enabled pre := by simp [enabled, hd]
      rw [he] at ha
      rcases hpre r (List.mem_cons_self _ _) with h | ⟨k, hk, hx, hp⟩
      · exact absurd h hd
      · have ha0 : env.pool_alloc_stash ctx.stash.length = true :=
          ha _ (Nat.le_refl _) (by simp)
        have hih := ih { ctx with stash := ctx.stash ++ [⟨r, k, env.cache_hash_key k⟩],
                                  data := none } hpre'
          (by
            intro n h1 h2
            simp only [List.length_append, List.length_singleton] at h1 h2
            exact ha n (by omega) (by simp only [List.length_cons]; omega))
        rw [request_rules_next env r pre ctx k hd hk ha0 hx hp, he]
        refine ⟨hih.1, ?_, ?_⟩
        · have := hih.2.1
          simpa [stashed_rules, Call.stashed_rule] using this
        · have := hih.2.2
          simpa using this

/-- C19 (counterexample).  Rules `a`, `b`, both enabled; the key of rule `a`
builds, key building fails for rule `b`.  Request headers return with state
INIT, not BYPASS, and the node of rule `a` in the stash; the response-side
predicate then passes for rule `a`, and response headers with status 200 issue
a create call and enter CREATE: the exchange does not continue uncached. -/
theorem C19_counterexample :
    env_key_fails.cache_build_key rule_b.key = none ∧
    (run [Site.http_headers env_key_fails [rule_a, rule_b] txn_get false] ⟨ctx_init, []⟩).map
        (fun w => (w.ctx.state, w.ctx.stash.map (fun s => s.rule)))
      = some (CACHE_CTX_STATE_INIT, [rule_a]) ∧
    (run [Site.http_headers env_key_fails [rule_a, rule_b] txn_get false,
          Site.http_headers env_key_fails [rule_a, rule_b] txn_get true] ⟨ctx_init, []⟩).map
        (fun w => (w.ctx.state, w.log.filter Call.is_create))
      = some (CACHE_CTX_STATE_CREATE, [Call.create "/a" 2]) := by
  decide

/-- C19 (amended).  On a fresh INIT context with an eligible method, let the
loop reach the enabled rule `R` (every rule before it is passed over, the stash
appends succeeding) and let key building fail for `R`.  Then the handler
returns 1 at once: its last call is the failed key build, so no node is stashed
for `R` and no existence check or predicate evaluation is made for `R` or any
later rule; the rules handed to `cache_stash_rule` are the enabled rules before
`R`; the context is the one the earlier rules left, with their nodes in the
stash and state INIT (not BYPASS); and the outcome is the same as if no rule
followed `R`. -/
theorem C19_key_build_failure_returns (env : Env) (pre post : List cache_rule)
    (R : cache_rule) (txn : http_txn)
    (hm : txn.meth ≠ HTTP_METH_OTHER)
    (ha : ∀ n, n < (enabled pre).length → env.pool_alloc_stash n = true)
    (hpre : ∀ q ∈ pre, passed_over env q)
    (hR : R.state ≠ CACHE_RULE_DISABLED)
    (hk : env.cache_build_key R.key = none) :
    ∃ ret, cache_filter_http_headers env (pre ++ R :: post) txn false ctx_init = some ret ∧
      ret.ret = 1 ∧
      ret.ctx = (request_rules env pre ctx_init).2.1 ∧
      ret.ctx.state = CACHE_CTX_STATE_INIT ∧
      ret.ctx.stash.map (fun s => s.rule) = enabled pre ∧
      stashed_rules ret.calls = enabled pre ∧
      ret.calls = Call.housekeeping :: (request_rules env pre ctx_init).2.2 ++
        [Call.build_key R.key] ∧
      cache_filter_http_headers env (pre ++ [R]) txn false ctx_init = some ret := by
  have ha' : ∀ n, ctx_init.stash.length ≤ n →
      n < ctx_init.stash.length + (enabled pre).length → env.pool_alloc_stash n = true :=
    fun n _ h2 => ha n (by simpa [ctx_init] using h2)
  have hst := request_rules_passed_over_state env pre ctx_init hpre ha'
  have hfail : ∀ (rest : List cache_rule) (c : cache_ctx),
      request_rules env (R :: rest) c = (LoopExit.returned, c, [Call.build_key R.key]) := by
    intro rest c
    simp [request_rules, hR, hk]
  have hloop : ∀ rest : List cache_rule,
      request_rules env (pre ++ R :: rest) ctx_init
        = (LoopExit.returned, (request_rules env pre ctx_init).2.1,
            (request_rules env pre ctx_init).2.2 ++ [Call.build_key R.key]) := by
    intro rest
    rw [(request_rules_passed_over env (R :: rest) pre ctx_init hpre ha').1, hfail]
  have hval : ∀ rest : List cache_rule,
      cache_filter_http_headers env (pre ++ R :: rest) txn false ctx_init
        = some ⟨1, (request_rules env pre ctx_init).2.1,
            Call.housekeeping :: (request_rules env pre ctx_init).2.2 ++
              [Call.build_key R.key]⟩ := by
    intro rest
    rw [http_headers_request_returned env _ txn ctx_init hm rfl (by rw [hloop rest]),
      hloop rest]
    simp
  refine ⟨_, hval post, rfl, rfl, ?_, ?_, ?_, rfl, hval []⟩
  · exact hst.1
  · simpa [ctx_init] using hst.2.2
  · have := hst.2.1
    simpa [stashed_rules, Call.stashed_rule] using this

/-- Witness for C19 (amended): rule `a` is passed over, key building fails for
rule `b`, rule `d` follows. -/
theorem C19_key_build_failure_returns_witness :
    ∃ ret, cache_filter_http_headers env_key_fails ([rule_a] ++ rule_b :: [rule_d]) txn_get
        false ctx_init = some ret ∧
      ret.ret = 1 ∧
      ret.ctx = (request_rules env_key_fails [rule_a] ctx_init).2.1 ∧
      ret.ctx.state = CACHE_CTX_STATE_INIT ∧
      ret.ctx.stash.map (fun s => s.rule) = enabled [rule_a] ∧
      stashed_rules ret.calls = enabled [rule_a] ∧
      ret.calls = Call.housekeeping :: (request_rules env_key_fails [rule_a] ctx_init).2.2 ++
        [Call.build_key rule_b.key] ∧
      cache_filter_http_headers env_key_fails ([rule_a] ++ [rule_b]) txn_get false ctx_init
        = some ret :=
  C19_key_build_failure_returns env_key_fails [rule_a] [rule_d] rule_b txn_get (by decide)
    (fun _ _ => rfl)
    (fun q hq => by rw [List.mem_singleton.1 hq]; exact Or.inr ⟨"/a", rfl, rfl, rfl⟩)
    (by decide) rfl

/-! ## The reachable-context properties on the exchange whose second write fails -/

/-- Witness for C13: the exchange `exchange_write_fails`. -/
theorem C13_snapshot_and_entry_exclusive_witness :
    ∃ w, run exchange_write_fails ⟨ctx_init, []⟩ = some w ∧
      ¬ (w.ctx.data.isSome = true ∧ w.ctx.entry.isSome = true) ∧
      (w.ctx.state = CACHE_CTX_STATE_HIT →
        w.ctx.data.isSome = true ∧ w.ctx.entry = none) ∧
      (w.ctx.state = CACHE_CTX_STATE_CREATE →
        w.ctx.entry.isSome = true ∧ w.ctx.data = none) :=
  C13_snapshot_and_entry_exclusive exchange_write_fails

/-- Witness for C16: after the exchange `exchange_write_fails`, a chunk of 100
bytes returns 100 and response headers return 1. -/
theorem C16_call_sites_continue_witness :
    ∃ w, run exchange_write_fails ⟨ctx_init, []⟩ = some w ∧
      (∃ ret, cache_filter_http_headers env_ab [rule_a] txn_get true w.ctx = some ret ∧
        ret.ret = 1) ∧
      (∃ ret, cache_filter_http_forward_data upd_ok true 100 w.ctx = some ret ∧
        ret.ret = 100) := by
  obtain ⟨w, hrun, h1, h2, _⟩ := C16_call_sites_continue exchange_write_fails
  obtain ⟨ret, hret, _, hlen⟩ := h2 upd_ok true 100
  exact ⟨w, hrun, h1 env_ab [rule_a] txn_get true, ret, hret, hlen (by norm_num)⟩

/-- Witness for C20: the exchange `exchange_write_fails`, which ends in state
PASS after the failed write. -/
theorem C20_pass_has_governing_rule_witness :
    ∃ w, run exchange_write_fails ⟨ctx_init, []⟩ = some w ∧
      (w.ctx.state = CACHE_CTX_STATE_PASS → ∃ rule, w.ctx.rule = some rule) ∧
      (∀ (env : Env) (rules : List cache_rule) (txn : http_txn),
        cache_filter_http_headers env rules txn true w.ctx ≠ none) :=
  C20_pass_has_governing_rule exchange_write_fails

/-! ## Settling the live entry -/

theorem run_append :
    ∀ (a b : List Site) (w : World), run (a ++ b) w = (run a w).bind (run b) := by
  intro a
  induction a with
  | nil => intro b w; rfl
  | cons s a ih =>
    intro b w
    cases hs : step w s with
    | none => simp [run, hs]
    | some w1 => simp [run, hs, ih b w1]

theorem request_rules_no_settling (env : Env) :
    ∀ (rules : List cache_rule) (ctx : cache_ctx),
      (request_rules env rules ctx).2.2.filter Call.is_settling = [] := by
  intro rules
  induction rules with
  | nil => intro ctx; rfl
  | cons r rest ih =>
    intro ctx
    by_cases hd : r.state = CACHE_RULE_DISABLED
    · rw [request_rules_disabled env r rest ctx hd]; exact ih ctx
    · cases hk : env.cache_build_key r.key with
      | none =>
        simp [request_rules, hd, hk, Call.is_settling, Call.is_finish, Call.is_abort,
          Call.is_failed_update]
      | some k =>
        cases ha : env.pool_alloc_stash ctx.stash.length with
        | false =>
          simp [request_rules, hd, hk, cache_stash_rule, ha, Call.is_settling, Call.is_finish,
            Call.is_abort, Call.is_failed_update]
        | true =>
          cases hx : env.cache_exists k (env.cache_hash_key k) with
          | some dat =>
            rw [request_rules_hit env r rest ctx k dat hd hk ha hx]
            simp [Call.is_settling, Call.is_finish, Call.is_abort, Call.is_failed_update]
          | none =>
            cases hp : env.cache_test_rule r false with
            | true =>
              rw [request_rules_pass env r rest ctx k hd hk ha hx hp]
              simp [Call.is_settling, Call.is_finish, Call.is_abort, Call.is_failed_update]
            | false =>
              rw [request_rules_next env r rest ctx k hd hk ha hx hp]
              simp [Call.is_settling, Call.is_finish, Call.is_abort, Call.is_failed_update,
                ih]

theorem response_rules_no_settling (env : Env) :
    ∀ (rules : List cache_rule) (ctx : cache_ctx),
      (response_rules env rules ctx).2.filter Call.is_settling = [] := by
  intro rules
  induction rules with
  | nil => intro ctx; rfl
  | cons r rest ih =>
    intro ctx
    cases hp : env.cache_test_rule r true with
    | true =>
      simp [response_rules, hp, Call.is_settling, Call.is_finish, Call.is_abort,
        Call.is_failed_update]
    | false =>
      simp [response_rules, hp, Call.is_settling, Call.is_finish, Call.is_abort,
        Call.is_failed_update, ih ctx]

theorem response_pass_no_settling (env : Env) (txn : http_txn) (ctx : cache_ctx)
    (calls : List Call) (ret : Ret) (hc : calls.filter Call.is_settling = [])
    (h : response_pass env txn ctx calls = some ret) :
    ret.calls.filter Call.is_settling = [] := by
  cases hr : ctx.rule with
  | none => simp [response_pass, hr] at h
  | some rule =>
    by_cases hv : code_valid rule.code txn.status = false
    · simp [response_pass, hr, hv] at h
      rw [← h]; exact hc
    · cases hsc : stash_scan ctx ctx.stash with
      | none =>
        simp [response_pass, hr, hv, hsc] at h
        rw [← h]; exact hc
      | some kh =>
        simp [response_pass, hr, hv, hsc] at h
        rw [← h]
        simp [hc, Call.is_settling, Call.is_finish, Call.is_abort, Call.is_failed_update]

theorem http_headers_no_settling (env : Env) (rules : List cache_rule) (txn : http_txn)
    (isResp : Bool) (ctx : cache_ctx) (ret : Ret)
    (h : cache_filter_http_headers env rules txn isResp ctx = some ret) :
    ret.calls.filter Call.is_settling = [] := by
  cases isResp with
  | false =>
    by_cases hm : txn.meth = HTTP_METH_OTHER
    · rw [http_headers_request_other env rules txn ctx hm] at h
      rw [← Option.some.inj h]
      rfl
    · by_cases hs : ctx.state = CACHE_CTX_STATE_INIT
      · have hq := request_rules_no_settling env rules ctx
        cases he : (request_rules env rules ctx).1 with
        | returned =>
          rw [http_headers_request_returned env rules txn ctx hm hs he] at h
          rw [← Option.some.inj h]
          simpa [Call.is_settling, Call.is_finish, Call.is_abort, Call.is_failed_update]
            using hq
        | fell =>
          rw [http_headers_request_fell env rules txn ctx hm hs he] at h
          rw [← Option.some.inj h]
          by_cases hh : (request_rules env rules ctx).2.1.state = CACHE_CTX_STATE_HIT
          · simpa [hh, Call.is_settling, Call.is_finish, Call.is_abort, Call.is_failed_update]
              using hq
          · simpa [hh, Call.is_settling, Call.is_finish, Call.is_abort, Call.is_failed_update]
              using hq
      · by_cases hh : ctx.state = CACHE_CTX_STATE_HIT
        · simp [cache_filter_http_headers, hm, hh] at h
          rw [← h]
          rfl
        · simp [cache_filter_http_headers, hm, hs, hh] at h
          rw [← h]
          rfl
  | true =>
    by_cases hs : ctx.state = CACHE_CTX_STATE_INIT
    · have hq := response_rules_no_settling env rules ctx
      by_cases hp : (response_rules env rules ctx).1.state = CACHE_CTX_STATE_PASS
      · simp only [cache_filter_http_headers, hs, hp, if_true] at h
        exact response_pass_no_settling env txn _ _ ret hq (by simpa using h)
      · simp [cache_filter_http_headers, hs, hp] at h
        rw [← h]; exact hq
    · by_cases hp : ctx.state = CACHE_CTX_STATE_PASS
      · rw [http_headers_response_pass env rules txn ctx hp] at h
        exact response_pass_no_settling env txn ctx [] ret rfl h
      · rw [http_headers_response_other env rules txn ctx hs hp] at h
        rw [← Option.some.inj h]
        rfl

theorem run_head_no_settling :
    ∀ (head : List Site) (w0 w : World), (∀ s ∈ head, s.is_head = true) →
      run head w0 = some w →
      w.log.filter Call.is_settling = w0.log.filter Call.is_settling := by
  intro head
  induction head with
  | nil =>
    intro w0 w _ h
    simp only [run] at h
    rw [← Option.some.inj h]
  | cons s head ih =>
    intro w0 w hh h
    have hs := hh s (List.mem_cons_self _ _)
    have hh' : ∀ t ∈ head, t.is_head = true := fun t ht => hh t (List.mem_cons_of_mem _ ht)
    cases hst : step w0 s with
    | none => simp [run, hst] at h
    | some w1 =>
      simp only [run, hst] at h
      rw [ih w1 w hh' h]
      cases s with
      | http_headers env rules txn isResp =>
        cases hr : cache_filter_http_headers env rules txn isResp w0.ctx with
        | none => simp [step, hr] at hst
        | some ret =>
          simp [step, hr] at hst
          rw [← hst]
          simp [http_headers_no_settling env rules txn isResp w0.ctx ret hr]
      | http_forward_data upd isResp len =>
        have hr : isResp = false := by simpa [Site.is_head] using hs
        subst hr
        simp [step, forward_data_inert upd false len w0.ctx (Or.inr rfl)] at hst
        rw [← hst]
      | http_end isResp =>
        have hr : isResp = false := by simpa [Site.is_head] using hs
        subst hr
        simp [step, http_end_inert false w0.ctx (Or.inr rfl)] at hst
        rw [← hst]

theorem settled_cons (e : cache_entry) (sc c : Call) (ctx : cache_ctx) (ext : List Call)
    (hc : c.is_settling = false) (h : Settled e sc ctx (ext.filter Call.is_settling)) :
    Settled e sc ctx ((c :: ext).filter Call.is_settling) := by
  simpa [List.filter_cons, hc] using h

theorem run_body_settle (e : cache_entry) :
    ∀ (body : List Site) (c : cache_ctx) (lg : List Call), (∀ s ∈ body, s.is_body = true) →
      c.state = CACHE_CTX_STATE_CREATE → c.entry = some e →
      ∃ w1 ext, run body ⟨c, lg⟩ = some w1 ∧ w1.log = lg ++ ext ∧
        Settled e (settling_call e body) w1.ctx (ext.filter Call.is_settling) := by
  intro body
  induction body with
  | nil =>
    intro c lg _ hs he
    exact ⟨⟨c, lg⟩, [], rfl, by simp, Or.inl ⟨rfl, rfl, hs, he⟩⟩
  | cons s body ih =>
    intro c lg hb hs he
    have hb' : ∀ t ∈ body, t.is_body = true := fun t ht => hb t (List.mem_cons_of_mem _ ht)
    have hsb := hb s (List.mem_cons_self _ _)
    cases s with
    | http_headers env rules txn isResp => simp [Site.is_body] at hsb
    | http_forward_data upd isResp len =>
      cases isResp with
      | false =>
        have hst : step ⟨c, lg⟩ (Site.http_forward_data upd false len) = some ⟨c, lg⟩ := by
          simp [step, forward_data_inert upd false len c (Or.inr rfl)]
        have hsc : settling_call e (Site.http_forward_data upd false len :: body)
            = settling_call e body := by simp [settling_call]
        rw [hsc]
        simp only [run, hst]
        exact ih c lg hb' hs he
      | true =>
        cases hok : upd.ok with
        | true =>
          have hst : step ⟨c, lg⟩ (Site.http_forward_data upd true len)
              = some ⟨{ c with element := upd.element }, lg ++ [Call.update len true]⟩ := by
            simp [step, forward_data_write_ok upd len c hs hok]
          have hsc : settling_call e (Site.http_forward_data upd true len :: body)
              = settling_call e body := by simp [settling_call, hok]
          obtain ⟨w1, ext, hrun, hlog, hset⟩ :=
            ih { c with element := upd.element } (lg ++ [Call.update len true]) hb' hs he
          refine ⟨w1, Call.update len true :: ext, ?_, ?_, ?_⟩
          · simp only [run, hst]; exact hrun
          · rw [hlog]; simp
          · rw [hsc]
            exact settled_cons e _ _ _ ext rfl hset
        | false =>
          have hst : step ⟨c, lg⟩ (Site.http_forward_data upd true len)
              = some (World.mk
                  { c with element := upd.element,
                           entry := some { e with state := CACHE_ENTRY_STATE_INVALID },
                           state := CACHE_CTX_STATE_PASS }
                  (lg ++ [Call.update len false])) := by
            simp [step, forward_data_write_fail upd len c e hs he hok]
          have hsc : settling_call e (Site.http_forward_data upd true len :: body)
              = Call.update len false := by simp [settling_call, hok]
          refine ⟨World.mk
              { c with element := upd.element,
                       entry := some { e with state := CACHE_ENTRY_STATE_INVALID },
                       state := CACHE_CTX_STATE_PASS }
              (lg ++ [Call.update len false]), [Call.update len false], ?_, rfl, ?_⟩
          · simp only [run, hst]
            exact run_body_inert body _ hb' (by simp)
          · rw [hsc]
            exact Or.inr (Or.inr ⟨len, rfl, rfl, rfl, rfl⟩)
    | http_end isResp =>
      cases isResp with
      | false =>
        have hst : step ⟨c, lg⟩ (Site.http_end false) = some ⟨c, lg⟩ := by
          simp [step, http_end_inert false c (Or.inr rfl)]
        have hsc : settling_call e (Site.http_end false :: body) = settling_call e body := by
          simp [settling_call]
        rw [hsc]
        simp only [run, hst]
        exact ih c lg hb' hs he
      | true =>
        have hst : step ⟨c, lg⟩ (Site.http_end true)
            = some ⟨cache_finish c, lg ++ [Call.finish (some e)]⟩ := by
          simp [step, cache_filter_http_end, hs, he]
        have hsc : settling_call e (Site.http_end true :: body) = Call.finish (some e) := by
          simp [settling_call]
        refine ⟨⟨cache_finish c, lg ++ [Call.finish (some e)]⟩, [Call.finish (some e)],
          ?_, rfl, ?_⟩
        · simp only [run, hst]
          exact run_body_inert body _ hb' (by simp [cache_finish])
        · rw [hsc]
          exact Or.inr (Or.inl ⟨rfl, rfl, rfl, he⟩)

theorem detach_settling (ctx : cache_ctx) :
    (cache_filter_detach ⟨some ctx⟩).2.filter Call.is_settling
      = if ctx.state = CACHE_CTX_STATE_CREATE then [Call.abort ctx.entry] else [] := by
  have hq : ∀ l : List cache_rule_stash, (detach_stash l).filter Call.is_settling = [] := by
    intro l
    induction l with
    | nil => rfl
    | cons s l ih =>
      simpa [detach_stash, Call.is_settling, Call.is_finish, Call.is_abort,
        Call.is_failed_update] using ih
  by_cases h : ctx.state = CACHE_CTX_STATE_CREATE
  · simp [cache_filter_detach, h, hq, Call.is_settling, Call.is_finish, Call.is_abort,
      Call.is_failed_update]
  · simp [cache_filter_detach, h, hq, Call.is_settling, Call.is_finish, Call.is_abort,
      Call.is_failed_update]

/-- C2.  Take any exchange in pipeline order: after attach, header calls and
request-side body sites (`head`), at the end of which an entry is live in state
CREATE, then any body-phase call sites (`body`: chunks and end-of-message,
either direction, any store outcomes), then teardown.  The run never faults and
the whole log, teardown included, holds exactly one call that settles the
entry, `settling_call e body`: never zero, never two.  Which one it is follows
the order of arrival:
* if a response write fails first, it is that failed write: the failing write
  path marks the entry `CACHE_ENTRY_STATE_INVALID` and sets state PASS, and
  neither `cache_finish` nor `cache_abort` is ever called;
* if end-of-message of the response comes first, it is `cache_finish` on the
  entry, called before teardown, and teardown does not abort;
* if teardown comes before both, no settling call was made before it and
  teardown calls `cache_abort` on the entry. -/
theorem C2_entry_settled_exactly_once (head body : List Site) (w : World)
    (hh : ∀ s ∈ head, s.is_head = true) (hb : ∀ s ∈ body, s.is_body = true)
    (hw : run head ⟨ctx_init, []⟩ = some w)
    (hs : w.ctx.state = CACHE_CTX_STATE_CREATE) :
    ∃ e w1 log, w.ctx.entry = some e ∧
      run (head ++ body) ⟨ctx_init, []⟩ = some w1 ∧
      run_detach (head ++ body) ⟨ctx_init, []⟩ = some log ∧
      log = w1.log ++ (cache_filter_detach ⟨some w1.ctx⟩).2 ∧
      log.filter Call.is_settling = [settling_call e body] ∧
      Settled e (settling_call e body) w1.ctx (w1.log.filter Call.is_settling) := by
  obtain ⟨w', hw', hi⟩ := run_inv head ⟨ctx_init, []⟩ inv_init
  have hww : w' = w := by rw [hw] at hw'; exact (Option.some.inj hw').symm
  subst hww
  obtain ⟨e, he⟩ : ∃ e, w'.ctx.entry = some e := by
    have := (hi.create hs).2.1
    cases hen : w'.ctx.entry with
    | none => rw [hen] at this; cases this
    | some e => exact ⟨e, rfl⟩
  have hhead : w'.log.filter Call.is_settling = [] := by
    rw [run_head_no_settling head ⟨ctx_init, []⟩ w' hh hw]
    rfl
  obtain ⟨w1, ext, hrun, hlog, hset⟩ := run_body_settle e body w'.ctx w'.log hb hs he
  have hrun' : run (head ++ body) ⟨ctx_init, []⟩ = some w1 := by
    rw [run_append, hw]
    exact hrun
  have hw1 : w1.log.filter Call.is_settling = ext.filter Call.is_settling := by
    rw [hlog, List.filter_append, hhead, List.nil_append]
  refine ⟨e, w1, w1.log ++ (cache_filter_detach ⟨some w1.ctx⟩).2, he, hrun', ?_, rfl, ?_, ?_⟩
  · simp [run_detach, hrun']
  · rw [List.filter_append, hw1, detach_settling]
    rcases hset with ⟨h1, h2, h3, h4⟩ | ⟨h1, h2, h3, _⟩ | ⟨len, h1, h2, h3, _⟩
    · rw [h2, h3, h4, h1]; rfl
    · rw [h2, h3]; simp
    · rw [h2, h3]; simp
  · rw [hw1]; exact hset

/-- Witness for C2: the exchange `exchange_write_fails`, whose header phases
leave the entry with handle 2 live in CREATE and whose second write fails. -/
theorem C2_entry_settled_exactly_once_witness :
    ∃ e w1 log, ctx_create.entry = some e ∧
      run (exchange_write_fails.take 2 ++ exchange_write_fails.drop 2) ⟨ctx_init, []⟩
        = some w1 ∧
      run_detach (exchange_write_fails.take 2 ++ exchange_write_fails.drop 2) ⟨ctx_init, []⟩
        = some log ∧
      log = w1.log ++ (cache_filter_detach ⟨some w1.ctx⟩).2 ∧
      log.filter Call.is_settling = [settling_call e (exchange_write_fails.drop 2)] ∧
      Settled e (settling_call e (exchange_write_fails.drop 2)) w1.ctx
        (w1.log.filter Call.is_settling) :=
  C2_entry_settled_exactly_once (exchange_write_fails.take 2) (exchange_write_fails.drop 2)
    ⟨ctx_create, log_create⟩
    (by intro s hs; simp [exchange_write_fails] at hs; rcases hs with h | h <;> subst h <;> rfl)
    (by
      intro s hs
      simp [exchange_write_fails] at hs
      rcases hs with h | h | h <;> subst h <;> rfl)
    (by decide) rfl

/-- The exchange `exchange_write_fails` evaluated: the one settling call in its
whole log, teardown included, is the failed write of 50 bytes; `cache_finish`
and `cache_abort` are never called, and the context handed to teardown is in
state PASS with the entry marked invalid. -/
theorem exchange_write_fails_settled :
    (run_detach exchange_write_fails ⟨ctx_init, []⟩).map
        (fun log => (log.filter Call.is_settling, log.filter Call.is_closing))
      = some ([Call.update 50 false], []) ∧
    (run exchange_write_fails ⟨ctx_init, []⟩).map (fun w => (w.ctx.state, w.ctx.entry))
      = some (CACHE_CTX_STATE_PASS, some ⟨2, CACHE_ENTRY_STATE_INVALID⟩) := by
  decide

end CacheFilter
